import Mathlib

/-!
Verification development of `src/main.c` of RandomFileDisplayer.

The C program keeps a list of directories in `dirs.txt`, shows a random file
from them, and opens the last shown file with `xdg-open`.

Conventions of the embedding:

* a byte is a `Nat`; a C string is the list of its bytes before the
  terminating NUL (`CStr`); a `char` buffer is a list of bytes that may hold
  NUL bytes, read as a string by `cstr`;
* streams (`stdin`, the opened `dirs.txt`) are lists of bytes;
* `PATH_MAX` comes from `<linux/limits.h>`; the functions take it as the
  parameter `pmax`, and `PATH_MAX` is its Linux value;
* loops whose number of iterations is not bounded by the structure of their
  input take a fuel argument and return `none` when it runs out;
* running out of memory (`exit(1)` in `AddStringToList`) is not modelled.
-/

namespace RandomFileDisplayer

/-! ## Strings and buffers -/

/-- A C string: its bytes before the terminating NUL. -/
abbrev CStr := List Nat

/-- The string held by a `char` buffer: the bytes before the first NUL. -/
def cstr (buf : List Nat) : CStr := buf.takeWhile (fun c => c != 0)

/-- Linux value of `PATH_MAX` (`<linux/limits.h>`). -/
def PATH_MAX : Nat := 4096

/-- The dynamic array `StringList`: `count` is the length of `items`. -/
structure StringList where
  items : List CStr
  capacity : Nat
deriving DecidableEq

/-- The field `count` of a `StringList`. -/
def StringList.count (list : StringList) : Nat := list.items.length

/-- Function `InitStringList`: the empty list, nothing allocated. -/
def InitStringList : StringList := { items := [], capacity := 0 }

/-- Function `AddStringToList`: doubles the capacity when the list is full (8 for the
first allocation) and stores a copy of `str` at index `count`. -/
def AddStringToList (list : StringList) (str : CStr) : StringList :=
  { items := list.items ++ [str],
    capacity :=
      if list.count = list.capacity then
        (if list.capacity = 0 then 8 else list.capacity * 2)
      else list.capacity }

/-! ## Reading lines: `fgets` and the newline trim -/

/-- The characters one `fgets` call stores when the buffer has room for `room`
characters: it stops after a newline, at end of file, or when the room is
used up. -/
def readLine : Nat → List Nat → List Nat
  | 0, _ => []
  | _, [] => []
  | room + 1, c :: cs => if c = 10 then [c] else c :: readLine room cs

/-- Call `fgets(buffer, size, stream)`: `none` is the NULL return (end of file
before any character); otherwise the characters stored and the rest of the
stream. A buffer of size 1 holds the empty string and nothing is read. -/
def fgets (size : Nat) (stream : List Nat) : Option (List Nat × List Nat) :=
  if size = 0 then none
  else if size = 1 then some ([], stream)
  else if stream = [] then none
  else some (readLine (size - 1) stream, stream.drop (readLine (size - 1) stream).length)

/-- Call `strcspn(buf, "\r\n")`: the length of the initial part of the string in
`buf` that has neither a carriage return nor a line feed. -/
def strcspn_crlf (buf : List Nat) : Nat :=
  ((cstr buf).takeWhile (fun c => c != 13 && c != 10)).length

/-- The string left in `buf` by `buf[strcspn(buf, "\r\n")] = '\0'`. -/
def trimNewline (buf : List Nat) : CStr := (cstr buf).take (strcspn_crlf buf)

/-! ## The persisted directory list -/

/-- The `while (fgets(buffer, PATH_MAX, fp))` loop of `LoadDirs`. -/
def LoadDirsLoop (pmax : Nat) : Nat → List Nat → StringList → Option StringList
  | 0, _, _ => none
  | fuel + 1, fp, dirs =>
    match fgets pmax fp with
    | none => some dirs
    | some (buffer, rest) =>
      LoadDirsLoop pmax fuel rest
        (if (trimNewline buffer).length > 0 then AddStringToList dirs (trimNewline buffer)
         else dirs)

/-- Function `LoadDirs`: `store` is the content of `dirs.txt`, `none` when it cannot
be opened for reading (the code then creates an empty file and returns the
empty list; an empty store loads the same). -/
def LoadDirs (pmax : Nat) (store : Option (List Nat)) : Option StringList :=
  match store with
  | none => some InitStringList
  | some content => LoadDirsLoop pmax (content.length + 1) content InitStringList

/-- The text written by the `fprintf(fp, "%s\n", dirs->items[i])` loop. -/
def SaveDirsText : List CStr → List Nat
  | [] => []
  | item :: rest => item ++ [10] ++ SaveDirsText rest

/-- Function `SaveDirs`: overwrites the store; when `dirs.txt` cannot be opened for
writing (`openOk = false`) the store is left as it was. -/
def SaveDirs (openOk : Bool) (store : Option (List Nat)) (dirs : StringList) :
    Option (List Nat) :=
  if openOk then some (SaveDirsText dirs.items) else store

/-! ## The operating system seen by the program -/

/-- One `struct dirent` returned by `readdir`. -/
structure Dirent where
  d_name : List Nat
  d_type : Nat
deriving DecidableEq

/-- The file system calls the program makes, by path: `stat` returns
`st_mode` (following symbolic links), `opendir` the entries `readdir` then
returns in order, `access` whether `access(path, F_OK)` is 0. `lstatMode` is
the mode of the entry itself (not following links); the program never asks
for it, it only names what an entry is. -/
structure FileSys where
  stat : CStr → Option Nat
  lstatMode : CStr → Option Nat
  opendir : CStr → Option (List Dirent)
  access : CStr → Bool

/-- File type mask `S_IFMT` of `st_mode`. -/
def S_IFMT : Nat := 0o170000
/-- Directory file type `S_IFDIR`. -/
def S_IFDIR : Nat := 0o040000
/-- Regular file type `S_IFREG`. -/
def S_IFREG : Nat := 0o100000
/-- Symbolic link file type `S_IFLNK`. -/
def S_IFLNK : Nat := 0o120000

/-- The macro `S_ISDIR`. -/
def S_ISDIR (mode : Nat) : Bool := Nat.land mode S_IFMT == S_IFDIR
/-- The macro `S_ISREG`. -/
def S_ISREG (mode : Nat) : Bool := Nat.land mode S_IFMT == S_IFREG
/-- The macro `S_ISLNK`. -/
def S_ISLNK (mode : Nat) : Bool := Nat.land mode S_IFMT == S_IFLNK

/-- Value of `d_type`: `DT_UNKNOWN`. -/
def DT_UNKNOWN : Nat := 0
/-- Value of `d_type`: `DT_DIR`. -/
def DT_DIR : Nat := 4
/-- Value of `d_type`: `DT_REG`. -/
def DT_REG : Nat := 8
/-- Value of `d_type`: `DT_LNK`. -/
def DT_LNK : Nat := 10

/-- The test `stat(path, &st) == 0 && S_ISDIR(st.st_mode)`. -/
def statIsDir (fs : FileSys) (path : CStr) : Bool :=
  match fs.stat path with
  | some mode => S_ISDIR mode
  | none => false

/-! ## The `newdir` command -/

/-- The duplicate check of `newdir`: the `for` loop that sets `found` and
breaks at the first `strcmp(dirs.items[i], cmd) == 0`. -/
def findDir (cmd : CStr) : List CStr → Bool
  | [] => false
  | item :: rest => if item = cmd then true else findDir cmd rest

/-- How one `newdir` command ended. -/
inductive NewdirOutcome where
  | eof
  | invalidPath
  | alreadyInList
  | added
deriving DecidableEq

/-- State after a command on the directory list: the list in memory, the
store, and how many times `SaveDirs` was called. -/
structure DirsResult (Outcome : Type) where
  outcome : Outcome
  dirs : StringList
  store : Option (List Nat)
  saveCalls : Nat

/-- The `newdir` branch once `cmd` holds the trimmed line. -/
def newdirCmd (fs : FileSys) (openOk : Bool) (dirs : StringList) (store : Option (List Nat))
    (cmd : CStr) : DirsResult NewdirOutcome :=
  if !(statIsDir fs cmd) then
    { outcome := .invalidPath, dirs := dirs, store := store, saveCalls := 0 }
  else if findDir cmd dirs.items then
    { outcome := .alreadyInList, dirs := dirs, store := store, saveCalls := 0 }
  else
    { outcome := .added, dirs := AddStringToList dirs cmd,
      store := SaveDirs openOk store (AddStringToList dirs cmd), saveCalls := 1 }

/-- The `newdir` branch of `main`: reads the path line from `stdin`, trims
it, and runs the checks; a NULL `fgets` leaves the command loop. -/
def newdirBranch (pmax : Nat) (fs : FileSys) (openOk : Bool) (dirs : StringList)
    (store : Option (List Nat)) (stdin : List Nat) : DirsResult NewdirOutcome :=
  match fgets pmax stdin with
  | none => { outcome := .eof, dirs := dirs, store := store, saveCalls := 0 }
  | some (cmd, _) => newdirCmd fs openOk dirs store (trimNewline cmd)

/-! ## The `removedir` command -/

/-- The test `isspace` in the C locale. -/
def isspace (c : Nat) : Bool := c == 32 || (9 ≤ c && c ≤ 13)

/-- The test `isdigit`. -/
def isdigit (c : Nat) : Bool := 48 ≤ c && c ≤ 57

/-- Largest `long` on 64-bit Linux. -/
def LONG_MAX : Int := 9223372036854775807
/-- Smallest `long` on 64-bit Linux. -/
def LONG_MIN : Int := -9223372036854775808

/-- The digit run `strtol` converts in base 10: it stops at the first
character that is not a digit. -/
def strtolDigits : Nat → List Nat → Nat
  | acc, [] => acc
  | acc, c :: cs => if isdigit c then strtolDigits (acc * 10 + (c - 48)) cs else acc

/-- Call `strtol(s, NULL, 10)`: skips white space, takes an optional sign, converts
the digits that follow (0 when there are none) and clamps to the range of
`long`. -/
def strtol (s : CStr) : Int :=
  match s.dropWhile isspace with
  | 45 :: rest => max (-(strtolDigits 0 rest : Int)) LONG_MIN
  | 43 :: rest => min (strtolDigits 0 rest : Int) LONG_MAX
  | rest => min (strtolDigits 0 rest : Int) LONG_MAX

/-- Two's complement wrap of a value into the range of `long`. -/
def wrapLong (x : Int) : Int :=
  (x + 9223372036854775808) % 18446744073709551616 - 9223372036854775808

/-- The loop `for (i = start; i < count - 1; i++) items[i] = items[i + 1]`. -/
def shiftItems (items : List CStr) : Nat → Nat → List CStr
  | 0, _ => items
  | fuel + 1, i =>
    if i < items.length - 1 then
      shiftItems (items.set i (items.getD (i + 1) [])) fuel (i + 1)
    else items

/-- Removal at index `idx`: the shift loop, then `dirs.count--`. The capacity
stays. -/
def removeAt (dirs : StringList) (idx : Nat) : StringList :=
  { items := (shiftItems dirs.items dirs.count idx).take (dirs.count - 1),
    capacity := dirs.capacity }

/-- The search loop of removal by path: the first index `i` (counted from
`i`) with `strcmp(dirs.items[i], cmd) == 0`. -/
def findPathIndex (cmd : CStr) : List CStr → Nat → Option Nat
  | [], _ => none
  | item :: rest, i => if item = cmd then some i else findPathIndex cmd rest (i + 1)

/-- How one `removedir` command ended. -/
inductive RemoveOutcome where
  | nothingToRemove
  | eof
  | removedByIndex (idx : Nat)
  | removedByPath (idx : Nat)
  | notFound
deriving DecidableEq

/-- The `removedir` branch once `cmd` holds the trimmed line. -/
def removedirCmd (openOk : Bool) (dirs : StringList) (store : Option (List Nat))
    (cmd : CStr) : DirsResult RemoveOutcome :=
  let idx : Int := wrapLong (strtol cmd - 1)
  if 0 ≤ idx ∧ idx < (dirs.count : Int) then
    { outcome := .removedByIndex idx.toNat, dirs := removeAt dirs idx.toNat,
      store := SaveDirs openOk store (removeAt dirs idx.toNat), saveCalls := 1 }
  else
    match findPathIndex cmd dirs.items 0 with
    | some i =>
      { outcome := .removedByPath i, dirs := removeAt dirs i,
        store := SaveDirs openOk store (removeAt dirs i), saveCalls := 1 }
    | none => { outcome := .notFound, dirs := dirs, store := store, saveCalls := 0 }

/-- The `removedir` branch of `main`. -/
def removedirBranch (pmax : Nat) (openOk : Bool) (dirs : StringList)
    (store : Option (List Nat)) (stdin : List Nat) : DirsResult RemoveOutcome :=
  if dirs.count = 0 then
    { outcome := .nothingToRemove, dirs := dirs, store := store, saveCalls := 0 }
  else
    match fgets pmax stdin with
    | none => { outcome := .eof, dirs := dirs, store := store, saveCalls := 0 }
    | some (cmd, _) => removedirCmd openOk dirs store (trimNewline cmd)

/-- A path as the program holds it in the directory list: not empty, shorter
than `PATH_MAX`, with no NUL, carriage return or line feed. -/
def HeldPath (pmax : Nat) (p : CStr) : Prop :=
  p ≠ [] ∧ p.length < pmax ∧ ∀ c ∈ p, c ≠ 0 ∧ c ≠ 13 ∧ c ≠ 10

instance (pmax : Nat) (p : CStr) : Decidable (HeldPath pmax p) := by
  unfold HeldPath; infer_instance

/-! ## Enumerating files -/

/-- The path built by `snprintf(fullPath, size, "%s/%s", basePath, d_name)`:
cut to `size - 1` characters. -/
def snprintf_path (size : Nat) (basePath name : List Nat) : CStr :=
  (cstr basePath ++ [47] ++ cstr name).take (size - 1)

/-- The test that skips the entries `.` and `..`. -/
def isDotEntry (name : List Nat) : Bool := cstr name == [46] || cstr name == [46, 46]

/-- The `while ((entry = readdir(dir)) != NULL)` loop of
`GetAllFilesRecursive`; `recurse` is the recursive call. -/
def scanEntries (pmax : Nat) (fs : FileSys) (recurse : CStr → StringList → Option StringList)
    (basePath : CStr) : List Dirent → StringList → Option StringList
  | [], fileList => some fileList
  | entry :: more, fileList =>
    if isDotEntry entry.d_name then scanEntries pmax fs recurse basePath more fileList
    else if entry.d_type = DT_DIR then
      (recurse (snprintf_path pmax basePath entry.d_name) fileList).bind
        (scanEntries pmax fs recurse basePath more)
    else if entry.d_type = DT_REG then
      scanEntries pmax fs recurse basePath more
        (AddStringToList fileList (snprintf_path pmax basePath entry.d_name))
    else if entry.d_type = DT_UNKNOWN then
      match fs.stat (snprintf_path pmax basePath entry.d_name) with
      | some mode =>
        if S_ISDIR mode then
          (recurse (snprintf_path pmax basePath entry.d_name) fileList).bind
            (scanEntries pmax fs recurse basePath more)
        else if S_ISREG mode then
          scanEntries pmax fs recurse basePath more
            (AddStringToList fileList (snprintf_path pmax basePath entry.d_name))
        else scanEntries pmax fs recurse basePath more fileList
      | none => scanEntries pmax fs recurse basePath more fileList
    else scanEntries pmax fs recurse basePath more fileList

/-- Function `GetAllFilesRecursive` (the branch compiled when the `DT_`
constants exist); the fuel bounds the depth of the recursion. A directory
that cannot be opened leaves the list as it is. -/
def GetAllFilesRecursive (pmax : Nat) (fs : FileSys) :
    Nat → CStr → StringList → Option StringList
  | 0, _, _ => none
  | fuel + 1, basePath, fileList =>
    match fs.opendir basePath with
    | none => some fileList
    | some entries =>
      scanEntries pmax fs (GetAllFilesRecursive pmax fs fuel) basePath entries fileList

/-- The `for` loop of `GetAllFiles` over the saved directories. -/
def GetAllFilesLoop (pmax : Nat) (fs : FileSys) (fuel : Nat) :
    List CStr → StringList → Option StringList
  | [], files => some files
  | dir :: rest, files =>
    if statIsDir fs dir then
      (GetAllFilesRecursive pmax fs fuel dir files).bind (GetAllFilesLoop pmax fs fuel rest)
    else GetAllFilesLoop pmax fs fuel rest files

/-- Function `GetAllFiles`. -/
def GetAllFiles (pmax : Nat) (fs : FileSys) (fuel : Nat) (dirs : StringList) :
    Option StringList :=
  GetAllFilesLoop pmax fs fuel dirs.items InitStringList

/-! ## The Enter command -/

/-- Call `strncpy(dest, src, n)` on a buffer `dest` of at least `n` bytes:
the first `n` bytes become the first `n` characters of `src`, padded with
NUL; the bytes from `n` on stay. -/
def strncpy (dest : List Nat) (src : CStr) (n : Nat) : List Nat :=
  (cstr src).take n ++ List.replicate (n - (cstr src).length) 0 ++ dest.drop n

/-- The initial value `{0}` of `g_LastShownFile`. -/
def initLastShown (pmax : Nat) : List Nat := List.replicate pmax 0

/-- What the Enter command showed. -/
inductive EnterOutcome where
  | noFiles
  | shown (path : CStr)
deriving DecidableEq

/-- The pick of the Enter branch: `r` is the value of `rand()`, `g` the
buffer `g_LastShownFile`; returns what is shown and the buffer afterwards. -/
def pickFile (pmax : Nat) (files : StringList) (r : Nat) (g : List Nat) :
    EnterOutcome × List Nat :=
  if files.count = 0 then (.noFiles, g)
  else
    (.shown (cstr (strncpy g (files.items.getD (r % files.count) []) (pmax - 1))),
      strncpy g (files.items.getD (r % files.count) []) (pmax - 1))

/-- The Enter branch of `main`: reload the directories, enumerate, pick. -/
def enterBranch (pmax : Nat) (fs : FileSys) (fuel : Nat) (store : Option (List Nat))
    (r : Nat) (g : List Nat) : Option (StringList × EnterOutcome × List Nat) :=
  (LoadDirs pmax store).bind fun dirs =>
    (GetAllFiles pmax fs fuel dirs).map fun files => (dirs, pickFile pmax files r g)

/-! ## The open command -/

/-- The bytes the escape loop of `HandleOpenCommand` writes for the
characters of the path. For a single quote the source has four store
statements, but the comment of the second one ends in a backslash, which
joins the next source line (the third store) to that comment: the compiled
loop stores three bytes, quote, backslash, quote. -/
def escapeChars : CStr → List Nat
  | [] => []
  | c :: cs => if c = 39 then 39 :: 92 :: 39 :: escapeChars cs else c :: escapeChars cs

/-- The string built in `escapedPath`: opening quote, escaped characters,
closing quote (the terminating NUL follows it in the buffer). -/
def escapedPath (p : CStr) : List Nat := [39] ++ escapeChars p ++ [39]

/-- The size passed to `malloc` for `escapedPath`. -/
def escapedAlloc (p : CStr) : Nat := p.length * 4 + 3

/-- The size of the buffer `cmd` of `HandleOpenCommand`. -/
def cmdSize (pmax : Nat) : Nat := pmax * 4 + 16

/-- The text `xdg-open ` that starts the command. -/
def xdgOpen : List Nat := [120, 100, 103, 45, 111, 112, 101, 110, 32]

/-- The command built by `snprintf(cmd, sizeof(cmd), "xdg-open %s", escapedPath)`. -/
def openCommand (pmax : Nat) (p : CStr) : List Nat :=
  (xdgOpen ++ escapedPath p).take (cmdSize pmax - 1)

/-- How one `open` command ended. -/
inductive OpenOutcome where
  | nothingShown
  | fileNotFound
  | allocFailed
  | ran (cmd : List Nat)
deriving DecidableEq

/-- Function `HandleOpenCommand` up to the call of `system`: `g` is the
buffer `g_LastShownFile`. -/
def HandleOpenCommand (pmax : Nat) (fs : FileSys) (mallocOk : Bool) (g : List Nat) :
    OpenOutcome :=
  if (cstr g).length = 0 then .nothingShown
  else if !(fs.access (cstr g)) then .fileNotFound
  else if !mallocOk then .allocFailed
  else .ran (openCommand pmax (cstr g))

/-- The characters that have a meaning of their own to the POSIX shell when
they are not quoted (XCU 2.2), newline included. -/
def shellSpecial (c : Nat) : Bool :=
  [10, 33, 34, 35, 36, 37, 38, 40, 41, 42, 59, 60, 61, 62, 63, 91, 93, 96, 123, 124, 125, 126].contains c

/-- Word splitting of a command line by the POSIX shell quoting rules (XCU
2.2.1 backslash, 2.2.2 single quotes): inside single quotes every character
stands for itself up to the next single quote; outside, a backslash makes
the next character literal, blanks end a word. `inQuote` tells whether a
single quote is open, `cur` is the word being built (`none` between words).
The result is `none` when a quote or a backslash is left open or an
unquoted character has a special meaning to the shell. -/
def shellSplit : List Nat → Bool → Option (List Nat) → Option (List (List Nat))
  | [], true, _ => none
  | [], false, none => some []
  | [], false, some w => some [w]
  | c :: cs, true, cur =>
    if c = 39 then shellSplit cs false cur
    else shellSplit cs true (some (cur.getD [] ++ [c]))
  | c :: cs, false, cur =>
    if c = 39 then shellSplit cs true (some (cur.getD []))
    else if c = 92 then
      match cs with
      | [] => none
      | c2 :: cs2 => if c2 = 10 then shellSplit cs2 false cur
                     else shellSplit cs2 false (some (cur.getD [] ++ [c2]))
    else if c = 32 ∨ c = 9 then
      match cur with
      | none => shellSplit cs false none
      | some w => (shellSplit cs false none).map (fun ws => w :: ws)
    else if shellSpecial c then none
    else shellSplit cs false (some (cur.getD [] ++ [c]))

/-- The words the shell sees in a command line. -/
def shellWords (line : List Nat) : Option (List (List Nat)) := shellSplit line false none

/-- The invariant of the buffer `g_LastShownFile`: it has `PATH_MAX` bytes
and its last byte is NUL (it starts as zeros and `strncpy` with
`PATH_MAX - 1` never writes the last byte). -/
def LastShownInv (pmax : Nat) (g : List Nat) : Prop :=
  g.length = pmax ∧ g.drop (pmax - 1) = [0]

instance (pmax : Nat) (g : List Nat) : Decidable (LastShownInv pmax g) := by
  unfold LastShownInv; infer_instance

/-- A file path as the enumeration produces it: a string (no NUL byte) that
fits a `PATH_MAX` buffer with its terminator. -/
def FilePathOk (pmax : Nat) (f : CStr) : Prop :=
  (∀ c ∈ f, c ≠ 0) ∧ f.length ≤ pmax - 1

/-! ## A directory tree, to say what a directory contains -/

/-- The entries of one directory, in the order `readdir` returns them (the
entries `.` and `..` left out): a regular file, an entry that is neither a
regular file nor a directory, or a subdirectory with its own entries. Each
entry carries the `d_type` the system reports for it. -/
inductive Tree where
  | nil : Tree
  | file (name : CStr) (d_type : Nat) (rest : Tree) : Tree
  | other (name : CStr) (d_type : Nat) (rest : Tree) : Tree
  | sub (name : CStr) (d_type : Nat) (children : Tree) (rest : Tree) : Tree

/-- The path of the entry `name` of the directory `base`. -/
def joinPath (base name : CStr) : CStr := base ++ [47] ++ name

/-- The `readdir` entries of the directory itself. -/
def Tree.dirents : Tree → List Dirent
  | .nil => []
  | .file name dt rest => { d_name := name, d_type := dt } :: rest.dirents
  | .other name dt rest => { d_name := name, d_type := dt } :: rest.dirents
  | .sub name dt _ rest => { d_name := name, d_type := dt } :: rest.dirents

/-- Number of regular files everywhere below the directory. -/
def Tree.countFiles : Tree → Nat
  | .nil => 0
  | .file _ _ rest => 1 + rest.countFiles
  | .other _ _ rest => rest.countFiles
  | .sub _ _ children rest => children.countFiles + rest.countFiles

/-- Number N of regular files directly in the directory. -/
def Tree.directFiles : Tree → Nat
  | .nil => 0
  | .file _ _ rest => 1 + rest.directFiles
  | .other _ _ rest => rest.directFiles
  | .sub _ _ _ rest => rest.directFiles

/-- Number K of regular files within the subdirectories, recursively. -/
def Tree.deepFiles : Tree → Nat
  | .nil => 0
  | .file _ _ rest => rest.deepFiles
  | .other _ _ rest => rest.deepFiles
  | .sub _ _ children rest => children.countFiles + rest.deepFiles

/-- Nesting depth of the subdirectories. -/
def Tree.depth : Tree → Nat
  | .nil => 0
  | .file _ _ rest => rest.depth
  | .other _ _ rest => rest.depth
  | .sub _ _ children rest => max (children.depth + 1) rest.depth

/-- The paths of the regular files below `base`, depth first in entry
order, each formed as parent path, slash, entry name. -/
def Tree.filePaths (base : CStr) : Tree → List CStr
  | .nil => []
  | .file name _ rest => joinPath base name :: rest.filePaths base
  | .other _ _ rest => rest.filePaths base
  | .sub name _ children rest =>
    children.filePaths (joinPath base name) ++ rest.filePaths base

/-- Every path formed for an entry below `base` is shorter than `pmax`. -/
def Tree.fits (pmax : Nat) (base : CStr) : Tree → Bool
  | .nil => true
  | .file name _ rest => decide ((joinPath base name).length < pmax) && rest.fits pmax base
  | .other name _ rest => decide ((joinPath base name).length < pmax) && rest.fits pmax base
  | .sub name _ children rest =>
    decide ((joinPath base name).length < pmax) && children.fits pmax (joinPath base name)
      && rest.fits pmax base

/-- The test that `stat(path)` succeeds with a mode accepted by `test`. -/
def statIs (fs : FileSys) (test : Nat → Bool) (path : CStr) : Bool :=
  match fs.stat path with
  | some mode => test mode
  | none => false

/-- The test that the entry at `path` itself has a mode accepted by `test`. -/
def lstatIs (fs : FileSys) (test : Nat → Bool) (path : CStr) : Bool :=
  match fs.lstatMode path with
  | some mode => test mode
  | none => false

/-- The test that `opendir(path)` succeeds and `readdir` returns, apart from
`.` and `..`, the entries of `t` in order. -/
def opendirIs (fs : FileSys) (path : CStr) (t : Tree) : Bool :=
  match fs.opendir path with
  | some entries => entries.filter (fun e => !(isDotEntry e.d_name)) == t.dirents
  | none => false

/-- An entry name: a string (no NUL byte) other than `.` and `..`. -/
def nameOk (name : CStr) : Bool := !(name.contains 0) && !(isDotEntry name)

/-- The file system shows the entries `t` below the directory `base`:
every name is an entry name; a regular file is a regular file and is
reported as `DT_REG`, or as `DT_UNKNOWN` with `stat` finding a regular file;
a subdirectory is a directory, reported as `DT_DIR` or as `DT_UNKNOWN` with
`stat` finding a directory, can be opened and shows its own entries; any
other entry is neither, is reported as neither `DT_DIR` nor `DT_REG`, and
when it is reported as `DT_UNKNOWN`, `stat` fails on it or finds neither a
directory nor a regular file. -/
def Tree.agrees (fs : FileSys) : CStr → Tree → Bool
  | _, .nil => true
  | base, .file name dt rest =>
    nameOk name
      && (dt == DT_REG || (dt == DT_UNKNOWN && statIs fs S_ISREG (joinPath base name)))
      && lstatIs fs S_ISREG (joinPath base name)
      && rest.agrees fs base
  | base, .other name dt rest =>
    nameOk name
      && (dt != DT_DIR && dt != DT_REG)
      && (dt != DT_UNKNOWN ||
          (!(statIs fs S_ISDIR (joinPath base name)) && !(statIs fs S_ISREG (joinPath base name))))
      && lstatIs fs (fun m => !(S_ISDIR m) && !(S_ISREG m)) (joinPath base name)
      && rest.agrees fs base
  | base, .sub name dt children rest =>
    nameOk name
      && (dt == DT_DIR || (dt == DT_UNKNOWN && statIs fs S_ISDIR (joinPath base name)))
      && lstatIs fs S_ISDIR (joinPath base name)
      && opendirIs fs (joinPath base name) children
      && children.agrees fs (joinPath base name)
      && rest.agrees fs base

/-- The directory `base` exists, can be read everywhere, and contains
exactly the entries `t`. -/
def dirAgrees (fs : FileSys) (base : CStr) (t : Tree) : Bool :=
  !(base.contains 0) && statIsDir fs base && opendirIs fs base t && t.agrees fs base

/-! ## The watcher thread -/

/-- Size of the table `wd_map`. -/
def MAX_WATCHES : Nat := 1024

/-- Size `sizeof(struct inotify_event)` of the fixed part of an event record
(`<sys/inotify.h>`): the 32-bit fields `wd`, `mask`, `cookie` and `len`; the
bytes of `name` follow. -/
def inotifyEventSize : Nat := 16

/-- Size `EVENT_BUF_LEN` of the read buffer. -/
def EVENT_BUF_LEN : Nat := 1024 * (inotifyEventSize + 16)

/-- Event bit `IN_MOVED_FROM`. -/
def IN_MOVED_FROM : Nat := 0x40
/-- Event bit `IN_MOVED_TO`. -/
def IN_MOVED_TO : Nat := 0x80
/-- Event bit `IN_CREATE`. -/
def IN_CREATE : Nat := 0x100
/-- Event bit `IN_DELETE`. -/
def IN_DELETE : Nat := 0x200
/-- Event bit `IN_ISDIR`: the subject of the event is a directory. -/
def IN_ISDIR : Nat := 0x40000000

/-- Longest entry name `NAME_MAX` (`<linux/limits.h>`). -/
def NAME_MAX : Nat := 255

/-- The test `mask & flag` of the decoder. -/
def hasFlag (mask flag : Nat) : Bool := Nat.land mask flag != 0

/-- The 32-bit field stored little-endian at the start of `bs`. -/
def le32 (bs : List Nat) : Nat :=
  bs.getD 0 0 + 256 * bs.getD 1 0 + 65536 * bs.getD 2 0 + 16777216 * bs.getD 3 0

/-- Conversion of a value to `int` (two's complement, 32 bits). -/
def wrapInt (x : Int) : Int := (x + 2147483648) % 4294967296 - 2147483648

/-- The kinds of notification the watcher prints. -/
inductive EventKind where
  | created
  | deleted
  | renamedFrom
  | renamedTo
deriving DecidableEq

/-- The event bit tested for a kind. -/
def EventKind.bit : EventKind → Nat
  | .created => IN_CREATE
  | .deleted => IN_DELETE
  | .renamedFrom => IN_MOVED_FROM
  | .renamedTo => IN_MOVED_TO

/-- The text before `%s` in the format of a kind. -/
def msgHead : EventKind → List Nat
  | .created => [91, 43, 93, 32]
  | .deleted => [91, 45, 93, 32]
  | .renamedFrom => [91, 63, 93, 32]
  | .renamedTo => [32, 32, 32, 32, 61, 61, 62, 32]

/-- The text after `%s` in the format of a kind. -/
def msgTail : EventKind → List Nat
  | .created =>
    [32, 103, 101, 115, 116, 117, 114, 101, 115, 32, 97, 32, 115, 97, 108, 117, 116, 97,
      116, 105, 111, 110, 33, 10]
  | .deleted => [32, 98, 105, 100, 32, 102, 97, 114, 101, 119, 101, 108, 108, 46, 10]
  | .renamedFrom =>
    [32, 104, 97, 100, 32, 99, 104, 97, 110, 103, 101, 100, 32, 105, 116, 115, 32, 105, 100,
      101, 110, 116, 105, 116, 121, 46, 10]
  | .renamedTo => [10]

/-- One printed notification: its kind (which also fixes the colour) and the
text built in `msg`. -/
structure Notification where
  kind : EventKind
  msg : List Nat
deriving DecidableEq

/-- The text built by `snprintf(msg, sizeof(msg), format, event->name)` in a
buffer of `PATH_MAX + 64` bytes; `name` holds the bytes from `event->name` on. -/
def eventMessage (pmax : Nat) (kind : EventKind) (name : List Nat) : List Nat :=
  (msgHead kind ++ cstr name ++ msgTail kind).take (pmax + 64 - 1)

/-- The body of the decoding loop for one event: nothing for an event
without a name or about a directory, otherwise the message of the first kind
whose bit is set. -/
def handleEvent (pmax : Nat) (mask len : Nat) (name : List Nat) : List Notification :=
  if len ≠ 0 then
    if !(hasFlag mask IN_ISDIR) then
      if hasFlag mask IN_CREATE then
        [{ kind := .created, msg := eventMessage pmax .created name }]
      else if hasFlag mask IN_DELETE then
        [{ kind := .deleted, msg := eventMessage pmax .deleted name }]
      else if hasFlag mask IN_MOVED_FROM then
        [{ kind := .renamedFrom, msg := eventMessage pmax .renamedFrom name }]
      else if hasFlag mask IN_MOVED_TO then
        [{ kind := .renamedTo, msg := eventMessage pmax .renamedTo name }]
      else []
    else []
  else []

/-- The loop `while (i < length)` over the bytes read: `buffer` holds the
`length` bytes received, `i` is the `int` index, `out` the notifications
printed so far. The result is `none` when the fuel runs out or the index has
become negative (the event pointer would then lie before the buffer). Bytes
past the received ones read as 0. -/
def decodeEvents (pmax : Nat) (buffer : List Nat) (length : Int) :
    Nat → Int → List Notification → Option (List Notification)
  | 0, _, _ => none
  | fuel + 1, i, out =>
    if i < length then
      if i < 0 then none
      else
        decodeEvents pmax buffer length fuel
          (wrapInt (i + (inotifyEventSize : Int)
            + (le32 ((buffer.drop i.toNat).drop 12) : Int)))
          (out ++ handleEvent pmax (le32 ((buffer.drop i.toNat).drop 4))
            (le32 ((buffer.drop i.toNat).drop 12))
            ((buffer.drop i.toNat).drop inotifyEventSize))
    else some out

/-- The decoding of one buffer returned by `read`, from index 0. -/
def decodeBuffer (pmax : Nat) (buffer : List Nat) : Option (List Notification) :=
  decodeEvents pmax buffer (buffer.length : Int) (buffer.length + 1) 0 []

/-- How the registration loop ended: all directories tried (or the count of
watches reached `MAX_WATCHES`), with the table and `watch_count`; or a store
`wd_map[wd]` outside the table, at directory index `i`. -/
inductive RegisterResult where
  | done (wd_map : List (Option CStr)) (watch_count : Nat)
  | outOfBounds (i : Nat) (wd : Nat)
deriving DecidableEq

/-- The loop `for (i = 0; i < dirs->count && watch_count < MAX_WATCHES; i++)`
that registers the directories: `addWatch i path` is what the call
`inotify_add_watch` number `i` returns (negative on failure). -/
def registerWatches (addWatch : Nat → CStr → Int) :
    List CStr → Nat → List (Option CStr) → Nat → RegisterResult
  | [], _, wd_map, watch_count => .done wd_map watch_count
  | dir :: rest, i, wd_map, watch_count =>
    if watch_count < MAX_WATCHES then
      if addWatch i dir < 0 then registerWatches addWatch rest (i + 1) wd_map watch_count
      else if (addWatch i dir).toNat < MAX_WATCHES then
        registerWatches addWatch rest (i + 1)
          (wd_map.set (addWatch i dir).toNat (some dir)) (watch_count + 1)
      else .outOfBounds i (addWatch i dir).toNat
    else .done wd_map watch_count

/-- The initial table `wd_map`: `MAX_WATCHES` null pointers. -/
def emptyWdMap : List (Option CStr) := List.replicate MAX_WATCHES none

/-- What one call of `read` on the inotify descriptor gives. -/
inductive ReadResult where
  | eagain
  | failed
  | data (buffer : List Nat)
deriving DecidableEq

/-- What the watcher did until it returned: whether it closed the
descriptor, how many times it called `read`, what it printed. -/
structure WatcherRun where
  closedFd : Bool
  reads : Nat
  notifications : List Notification
deriving DecidableEq

/-- The ways `WatcherThread` ends: `inotify_init1` failed; a store outside
`wd_map`; a normal return; a decoding loop that does not end. -/
inductive WatcherEnd where
  | initFailed
  | tableOverrun (i : Nat) (wd : Nat)
  | returned (run : WatcherRun)
  | stuck
deriving DecidableEq

/-- The loop `while (g_running)`: `polls` lists what `read` returns at each
turn for as long as `g_running` stays set. -/
def pollLoop (pmax : Nat) : List ReadResult → Nat → List Notification → WatcherEnd
  | [], reads, out => .returned { closedFd := true, reads := reads, notifications := out }
  | .eagain :: rest, reads, out => pollLoop pmax rest (reads + 1) out
  | .failed :: _, reads, out =>
    .returned { closedFd := true, reads := reads + 1, notifications := out }
  | .data buffer :: rest, reads, out =>
    match decodeBuffer pmax buffer with
    | none => .stuck
    | some printed => pollLoop pmax rest (reads + 1) (out ++ printed)

/-- Function `WatcherThread`: `initOk` tells whether `inotify_init1`
succeeded. -/
def WatcherThread (pmax : Nat) (initOk : Bool) (addWatch : Nat → CStr → Int)
    (dirs : StringList) (polls : List ReadResult) : WatcherEnd :=
  if !initOk then .initFailed
  else
    match registerWatches addWatch dirs.items 0 emptyWdMap 0 with
    | .outOfBounds i wd => .tableOverrun i wd
    | .done _ watch_count =>
      if watch_count = 0 then
        .returned { closedFd := true, reads := 0, notifications := [] }
      else pollLoop pmax polls 0 []

/-- One well-formed event record as the kernel writes it: the four fields,
the name, and `pad` NUL bytes after the name. -/
structure InotifyEvent where
  wd : Nat
  mask : Nat
  cookie : Nat
  name : CStr
  pad : Nat
deriving DecidableEq

/-- The bytes of a 32-bit field, little-endian. -/
def u32le (x : Nat) : List Nat := [x % 256, x / 256 % 256, x / 65536 % 256, x / 16777216 % 256]

/-- The field `len` of a record: the name with its padding. -/
def InotifyEvent.len (e : InotifyEvent) : Nat := e.name.length + e.pad

/-- The bytes of a record in the buffer. -/
def InotifyEvent.encode (e : InotifyEvent) : List Nat :=
  u32le e.wd ++ u32le e.mask ++ u32le e.cookie ++ u32le e.len ++ e.name
    ++ List.replicate e.pad 0

/-- The bytes of a sequence of records. -/
def encodeEvents : List InotifyEvent → List Nat
  | [] => []
  | e :: rest => e.encode ++ encodeEvents rest

/-- A record is well formed: the mask is a 32-bit value, the name is a
string of at most `NAME_MAX` bytes, followed by at least one NUL when it is
not empty, and an event without a name has `len = 0`. -/
def WellFormedEvent (e : InotifyEvent) : Prop :=
  e.mask < 4294967296 ∧ (∀ c ∈ e.name, c ≠ 0) ∧ e.name.length ≤ NAME_MAX ∧
    (e.name ≠ [] → 1 ≤ e.pad) ∧ (e.name = [] → e.pad = 0) ∧ e.len < 4294967296

instance (e : InotifyEvent) : Decidable (WellFormedEvent e) := by
  unfold WellFormedEvent; infer_instance

/-- The notifications the decoder prints for one record. -/
def notificationsOf (pmax : Nat) (e : InotifyEvent) : List Notification :=
  handleEvent pmax e.mask e.len e.name

/-- Exactly the kind `k` is set in the mask, of the four kinds. -/
def onlyKind (mask : Nat) (k : EventKind) : Prop :=
  ∀ k2 : EventKind, hasFlag mask k2.bit = true ↔ k2 = k

/-- The handles inotify gives to successive registrations: 1, 2, 3, ... -/
def seqHandles : Nat → CStr → Int := fun i _ => (i : Int) + 1

/-- The directory `/d` followed by the decimal digits of `k`. -/
def numberedDir (k : Nat) : CStr := [47, 100] ++ (Nat.toDigits 10 k).map Char.toNat

/-- A snapshot of the 1024 directories `/d0`, `/d1`, ..., `/d1023`. -/
def manyDirs : StringList :=
  { items := (List.range 1024).map numberedDir, capacity := 1024 }

/-- A buffer holding a creation of `t`, a creation of a directory `d` and a
deletion of `t`. -/
def demoEvents : List InotifyEvent :=
  [{ wd := 1, mask := IN_CREATE, cookie := 0, name := [116], pad := 15 },
   { wd := 1, mask := IN_CREATE + IN_ISDIR, cookie := 0, name := [100], pad := 15 },
   { wd := 1, mask := IN_DELETE, cookie := 0, name := [116], pad := 15 }]

/-! ## A small file system used to instantiate the theorems -/

/-- The path `/tmp`. -/
def tmpPath : CStr := [47, 116, 109, 112]

/-- The path `/a`. -/
def aPath : CStr := [47, 97]

/-- Mode of a directory with permissions 755. -/
def dirMode : Nat := 0o040755

/-- Mode of a regular file with permissions 644. -/
def regMode : Nat := 0o100644

/-- Mode of a symbolic link. -/
def lnkMode : Nat := 0o120777

/-- A file system in which `/tmp` and `/a` are directories and nothing else
exists. -/
def twoDirsFs : FileSys :=
  { stat := fun p => if p = tmpPath ∨ p = aPath then some dirMode else none,
    lstatMode := fun p => if p = tmpPath ∨ p = aPath then some dirMode else none,
    opendir := fun p => if p = tmpPath ∨ p = aPath then some [] else none,
    access := fun p => decide (p = tmpPath ∨ p = aPath) }

/-- A directory list holding `/a`. -/
def oneDir : StringList := { items := [aPath], capacity := 8 }

/-- A directory list holding `/a`, `/tmp` and `b`. -/
def threeDirs : StringList := { items := [aPath, tmpPath, [98]], capacity := 8 }

/-- The relative path `1dir`. -/
def oneDirPath : CStr := [49, 100, 105, 114]

/-- A directory list holding `/a` and `1dir`. -/
def digitDirs : StringList := { items := [aPath, oneDirPath], capacity := 8 }

/-- The entries of the directory `/a` of `smallFs`: the regular file `x`,
the subdirectory `s` holding the regular file `y` (reported as
`DT_UNKNOWN`), and the dangling symbolic link `l`. -/
def smallTree : Tree :=
  .file [120] DT_REG (.sub [115] DT_DIR (.file [121] DT_UNKNOWN .nil) (.other [108] DT_LNK .nil))

/-- The entries `.` and `..` that `readdir` returns first. -/
def dotEntries : List Dirent :=
  [{ d_name := [46], d_type := DT_DIR }, { d_name := [46, 46], d_type := DT_DIR }]

/-- A file system holding the directory `/a` with the entries `smallTree`. -/
def smallFs : FileSys :=
  { stat := fun p =>
      if p = aPath ∨ p = [47, 97, 47, 115] then some dirMode
      else if p = [47, 97, 47, 120] ∨ p = [47, 97, 47, 115, 47, 121] then some regMode
      else none,
    lstatMode := fun p =>
      if p = aPath ∨ p = [47, 97, 47, 115] then some dirMode
      else if p = [47, 97, 47, 120] ∨ p = [47, 97, 47, 115, 47, 121] then some regMode
      else if p = [47, 97, 47, 108] then some lnkMode
      else none,
    opendir := fun p =>
      if p = aPath then some (dotEntries ++ smallTree.dirents)
      else if p = [47, 97, 47, 115] then
        some (dotEntries ++ [{ d_name := [121], d_type := DT_UNKNOWN }])
      else none,
    access := fun p =>
      decide (p = aPath ∨ p = [47, 97, 47, 115] ∨ p = [47, 97, 47, 120]
        ∨ p = [47, 97, 47, 115, 47, 121]) }

/-- The files of `/a` in `smallFs`, in enumeration order. -/
def smallFiles : StringList :=
  { items := [[47, 97, 47, 120], [47, 97, 47, 115, 47, 121]], capacity := 8 }

/-- A path of `PATH_MAX - 1` bytes naming `/tmp`: 4092 slashes, then `tmp`. -/
def longBase : CStr := List.replicate 4092 47 ++ [116, 109, 112]

/-- The entries of the directory `longBase` of `longFs`: the regular file `f`. -/
def longTree : Tree := .file [102] DT_REG .nil

/-- A file system in which the directory `longBase` holds the regular file `f`. -/
def longFs : FileSys :=
  { stat := fun p =>
      if p = longBase then some dirMode
      else if p = joinPath longBase [102] then some regMode else none,
    lstatMode := fun p =>
      if p = longBase then some dirMode
      else if p = joinPath longBase [102] then some regMode else none,
    opendir := fun p => if p = longBase then some (dotEntries ++ longTree.dirents) else none,
    access := fun p => decide (p = longBase ∨ p = joinPath longBase [102]) }

/-- The path `/a/l`. -/
def linkPath : CStr := [47, 97, 47, 108]

/-- A file system in which the directory `/a` holds `l`, a symbolic link to a
regular file; `readdir` reports the `d_type` given (a file system that does
not supply the type reports `DT_UNKNOWN`). -/
def linkFs (d_type : Nat) : FileSys :=
  { stat := fun p =>
      if p = aPath then some dirMode else if p = linkPath then some regMode else none,
    lstatMode := fun p =>
      if p = aPath then some dirMode else if p = linkPath then some lnkMode else none,
    opendir := fun p =>
      if p = aPath then some (dotEntries ++ [{ d_name := [108], d_type := d_type }]) else none,
    access := fun p => decide (p = aPath ∨ p = linkPath) }

/-- A file system in which `access` finds every path. -/
def anyFileFs : FileSys :=
  { stat := fun _ => some regMode,
    lstatMode := fun _ => some regMode,
    opendir := fun _ => none,
    access := fun _ => true }

/-- The path `/d/a'b` of the file `a'b` in the directory `/d`. -/
def quotePath : CStr := [47, 100, 47, 97, 39, 98]

/-- The path of the file in `/d` whose name is `a`, quote, blank, `b`,
backslash. -/
def quoteBlankPath : CStr := [47, 100, 47, 97, 39, 32, 98, 92]

/-! ## Lemmas on strings and lines -/

theorem takeWhile_all {p : Nat → Bool} : ∀ (l : List Nat), (∀ c ∈ l, p c = true) →
    l.takeWhile p = l
  | [], _ => rfl
  | c :: cs, h => by
    have hc : p c = true := h c (List.mem_cons_self _ _)
    have ih := takeWhile_all cs (fun x hx => h x (List.mem_cons_of_mem _ hx))
    simp [List.takeWhile, hc, ih]

theorem takeWhile_stop {p : Nat → Bool} : ∀ (l : List Nat) (x : Nat) (r : List Nat),
    (∀ c ∈ l, p c = true) → p x = false → (l ++ x :: r).takeWhile p = l
  | [], x, r, _, hx => by simp [List.takeWhile, hx]
  | c :: cs, x, r, h, hx => by
    have hc : p c = true := h c (List.mem_cons_self _ _)
    have ih := takeWhile_stop cs x r (fun y hy => h y (List.mem_cons_of_mem _ hy)) hx
    simp [List.takeWhile, hc, ih]

theorem cstr_of_nulFree (s : List Nat) (h : ∀ c ∈ s, c ≠ 0) : cstr s = s := by
  unfold cstr
  exact takeWhile_all s (fun c hc => by simpa using h c hc)

theorem cstr_nulFree (buf : List Nat) : ∀ c ∈ cstr buf, c ≠ 0 := by
  intro c hc
  have := List.mem_takeWhile_imp hc
  simpa using this

theorem cstr_length_le (buf : List Nat) : (cstr buf).length ≤ buf.length := by
  unfold cstr
  exact (List.takeWhile_sublist _).length_le

theorem trimNewline_eq (buf : List Nat) :
    trimNewline buf = (cstr buf).takeWhile (fun c => c != 13 && c != 10) := by
  unfold trimNewline strcspn_crlf
  have h := (List.takeWhile_prefix (fun c => c != 13 && c != 10) (l := cstr buf))
  exact (List.prefix_iff_eq_take.mp h).symm

theorem trimNewline_clean (buf : List Nat) :
    ∀ c ∈ trimNewline buf, c ≠ 0 ∧ c ≠ 13 ∧ c ≠ 10 := by
  intro c hc
  rw [trimNewline_eq] at hc
  have h1 := List.mem_takeWhile_imp hc
  have h2 := cstr_nulFree buf c ((List.takeWhile_sublist _).subset hc)
  simp at h1
  exact ⟨h2, h1.1, h1.2⟩

theorem trimNewline_length_le (buf : List Nat) : (trimNewline buf).length ≤ buf.length := by
  rw [trimNewline_eq]
  exact le_trans (List.takeWhile_sublist _).length_le (cstr_length_le buf)

theorem trimNewline_of_clean (p : CStr) (h : ∀ c ∈ p, c ≠ 0 ∧ c ≠ 13 ∧ c ≠ 10) :
    trimNewline p = p := by
  rw [trimNewline_eq, cstr_of_nulFree p (fun c hc => (h c hc).1)]
  exact takeWhile_all p (fun c hc => by simp [(h c hc).2.1, (h c hc).2.2])

theorem trimNewline_line (p : CStr) (h : ∀ c ∈ p, c ≠ 0 ∧ c ≠ 13 ∧ c ≠ 10) :
    trimNewline (p ++ [10]) = p := by
  rw [trimNewline_eq, cstr_of_nulFree]
  · exact takeWhile_stop p 10 [] (fun c hc => by simp [(h c hc).2.1, (h c hc).2.2]) (by simp)
  · intro c hc
    rcases List.mem_append.mp hc with hc | hc
    · exact (h c hc).1
    · simp at hc; omega

theorem trimNewline_newline : trimNewline [10] = [] := by decide

theorem readLine_length_le : ∀ (room : Nat) (s : List Nat), (readLine room s).length ≤ room
  | 0, s => by simp [readLine]
  | room + 1, [] => by simp [readLine]
  | room + 1, c :: cs => by
    by_cases hc : c = 10
    · simp [readLine, hc]
    · simp [readLine, hc, readLine_length_le room cs]

theorem readLine_pos : ∀ (room : Nat) (s : List Nat), 0 < room → s ≠ [] →
    0 < (readLine room s).length
  | 0, _, h, _ => by omega
  | room + 1, [], _, h => by simp at h
  | room + 1, c :: cs, _, _ => by
    by_cases hc : c = 10 <;> simp [readLine, hc]

theorem readLine_full : ∀ (room : Nat) (p rest : List Nat), (∀ c ∈ p, c ≠ 10) →
    p.length < room → readLine room (p ++ 10 :: rest) = p ++ [10]
  | 0, _, _, _, h => by omega
  | room + 1, [], rest, _, _ => by simp [readLine]
  | room + 1, c :: cs, rest, hp, hlen => by
    have hc : c ≠ 10 := hp c (List.mem_cons_self _ _)
    have ih := readLine_full room cs rest (fun x hx => hp x (List.mem_cons_of_mem _ hx))
      (by simpa using hlen)
    simp [readLine, hc, ih]

theorem readLine_cut : ∀ (room : Nat) (p rest : List Nat), (∀ c ∈ p, c ≠ 10) →
    p.length = room → readLine room (p ++ rest) = p
  | 0, p, rest, _, hlen => by
    have : p = [] := List.length_eq_zero.mp hlen
    simp [readLine, this]
  | room + 1, [], rest, _, hlen => by simp at hlen
  | room + 1, c :: cs, rest, hp, hlen => by
    have hc : c ≠ 10 := hp c (List.mem_cons_self _ _)
    have ih := readLine_cut room cs rest (fun x hx => hp x (List.mem_cons_of_mem _ hx))
      (by simpa using hlen)
    simp [readLine, hc, ih]

theorem fgets_rest_shorter (size : Nat) (hsize : 2 ≤ size) (s buf rest : List Nat)
    (h : fgets size s = some (buf, rest)) :
    rest.length < s.length ∧ buf.length ≤ size - 1 := by
  unfold fgets at h
  have h0 : ¬ size = 0 := by omega
  have h1 : ¬ size = 1 := by omega
  by_cases hs : s = []
  · simp [h0, h1, hs] at h
  · simp only [h0, h1, hs, if_false] at h
    injection h with h
    injection h with hb hr
    have hpos := readLine_pos (size - 1) s (by omega) hs
    have hle := readLine_length_le (size - 1) s
    have hsl : 0 < s.length := List.length_pos.mpr hs
    subst hb; subst hr
    constructor
    · rw [List.length_drop]; omega
    · exact hle

/-! ## Lemmas on `LoadDirs` and `SaveDirs` -/

theorem AddStringToList_items (list : StringList) (str : CStr) :
    (AddStringToList list str).items = list.items ++ [str] := rfl

theorem fgets_line (pmax : Nat) (p rest : List Nat) (hp : ∀ c ∈ p, c ≠ 10)
    (hlen : p.length + 1 < pmax) :
    fgets pmax (p ++ 10 :: rest) = some (p ++ [10], rest) := by
  unfold fgets
  have h0 : ¬ pmax = 0 := by omega
  have h1 : ¬ pmax = 1 := by omega
  have hne : p ++ 10 :: rest ≠ [] := by simp
  have hr := readLine_full (pmax - 1) p rest hp (by omega)
  simp only [h0, h1, hne, if_false, hr]
  have : (p ++ 10 :: rest).drop (p ++ [10]).length = rest := by
    have e : p ++ 10 :: rest = (p ++ [10]) ++ rest := by simp
    rw [e, List.drop_left]
  rw [this]

theorem fgets_cut (pmax : Nat) (p rest : List Nat) (hp : ∀ c ∈ p, c ≠ 10)
    (hne : p ≠ []) (hlen : p.length + 1 = pmax) :
    fgets pmax (p ++ rest) = some (p, rest) := by
  unfold fgets
  have hpos : 0 < p.length := List.length_pos.mpr hne
  have h0 : ¬ pmax = 0 := by omega
  have h1 : ¬ pmax = 1 := by omega
  have hne2 : p ++ rest ≠ [] := by simp [hne]
  have hr := readLine_cut (pmax - 1) p rest hp (by omega)
  simp only [h0, h1, hne2, if_false, hr, List.drop_left]

theorem fgets_newline (pmax : Nat) (rest : List Nat) (h2 : 2 ≤ pmax) :
    fgets pmax (10 :: rest) = some ([10], rest) := by
  have := fgets_line pmax [] rest (by simp) (by simpa using h2)
  simpa using this

theorem LoadDirsLoop_total (pmax : Nat) (h2 : 2 ≤ pmax) :
    ∀ (fuel : Nat) (fp : List Nat) (dirs : StringList), fp.length < fuel →
      ∃ r, LoadDirsLoop pmax fuel fp dirs = some r
  | 0, _, _, h => by omega
  | fuel + 1, fp, dirs, h => by
    unfold LoadDirsLoop
    cases hg : fgets pmax fp with
    | none => exact ⟨dirs, rfl⟩
    | some br =>
      obtain ⟨buffer, rest⟩ := br
      have hlt := (fgets_rest_shorter pmax h2 fp buffer rest hg).1
      exact LoadDirsLoop_total pmax h2 fuel rest _ (by omega)

theorem LoadDirsLoop_held (pmax : Nat) (h2 : 2 ≤ pmax) :
    ∀ (fuel : Nat) (fp : List Nat) (dirs r : StringList),
      (∀ p ∈ dirs.items, HeldPath pmax p) → LoadDirsLoop pmax fuel fp dirs = some r →
      ∀ p ∈ r.items, HeldPath pmax p
  | 0, _, _, _, _, h => by simp [LoadDirsLoop] at h
  | fuel + 1, fp, dirs, r, hd, h => by
    unfold LoadDirsLoop at h
    cases hg : fgets pmax fp with
    | none =>
      rw [hg] at h
      injection h with h
      subst h
      exact hd
    | some br =>
      obtain ⟨buffer, rest⟩ := br
      rw [hg] at h
      have hb := (fgets_rest_shorter pmax h2 fp buffer rest hg).2
      refine LoadDirsLoop_held pmax h2 fuel rest _ r ?_ h
      by_cases hl : (trimNewline buffer).length > 0
      · simp only [hl, if_true, AddStringToList_items]
        intro p hp
        rcases List.mem_append.mp hp with hp | hp
        · exact hd p hp
        · simp at hp
          subst hp
          refine ⟨List.length_pos.mp hl, ?_, trimNewline_clean buffer⟩
          have := trimNewline_length_le buffer
          omega
      · simp only [hl, if_false]
        exact hd

theorem LoadDirs_total_held (pmax : Nat) (h2 : 2 ≤ pmax) (store : Option (List Nat)) :
    ∃ r, LoadDirs pmax store = some r ∧ ∀ p ∈ r.items, HeldPath pmax p := by
  cases store with
  | none => exact ⟨InitStringList, rfl, by simp [InitStringList]⟩
  | some content =>
    obtain ⟨r, hr⟩ := LoadDirsLoop_total pmax h2 (content.length + 1) content InitStringList
      (by omega)
    exact ⟨r, hr, LoadDirsLoop_held pmax h2 _ content InitStringList r
      (by simp [InitStringList]) hr⟩

theorem SaveDirsText_length_pos (p : CStr) (rest : List CStr) :
    p.length + 1 + (SaveDirsText rest).length = (SaveDirsText (p :: rest)).length := by
  simp [SaveDirsText]
  omega

theorem LoadDirsLoop_saved (pmax : Nat) (h2 : 2 ≤ pmax) :
    ∀ (items : List CStr) (fuel : Nat) (dirs : StringList),
      (∀ p ∈ items, HeldPath pmax p) → (SaveDirsText items).length < fuel →
      ∃ r, LoadDirsLoop pmax fuel (SaveDirsText items) dirs = some r ∧
        r.items = dirs.items ++ items
  | [], fuel, dirs, _, hf => by
    obtain ⟨k, rfl⟩ : ∃ k, fuel = k + 1 := ⟨fuel - 1, by omega⟩
    refine ⟨dirs, ?_, by simp⟩
    have h0 : ¬ pmax = 0 := by omega
    have h1 : ¬ pmax = 1 := by omega
    simp [LoadDirsLoop, SaveDirsText, fgets, h0, h1]
  | p :: rest, fuel, dirs, hi, hf => by
    have hp : HeldPath pmax p := hi p (List.mem_cons_self _ _)
    have hrest : ∀ q ∈ rest, HeldPath pmax q := fun q hq => hi q (List.mem_cons_of_mem _ hq)
    obtain ⟨hne, hlen, hclean⟩ := hp
    have hpos : 0 < p.length := List.length_pos.mpr hne
    have hno10 : ∀ c ∈ p, c ≠ 10 := fun c hc => (hclean c hc).2.2
    have htext : SaveDirsText (p :: rest) = p ++ 10 :: SaveDirsText rest := by
      simp [SaveDirsText]
    have hl := SaveDirsText_length_pos p rest
    by_cases hcase : p.length + 1 < pmax
    · obtain ⟨k, rfl⟩ : ∃ k, fuel = k + 1 := ⟨fuel - 1, by omega⟩
      obtain ⟨r, hr, hitems⟩ := LoadDirsLoop_saved pmax h2 rest k
        (AddStringToList dirs p) hrest (by omega)
      refine ⟨r, ?_, by simp [hitems, AddStringToList_items]⟩
      rw [htext]
      unfold LoadDirsLoop
      rw [fgets_line pmax p _ hno10 hcase]
      simp only [trimNewline_line p hclean, gt_iff_lt, hpos, if_true]
      exact hr
    · have heq : p.length + 1 = pmax := by omega
      obtain ⟨k, rfl⟩ : ∃ k, fuel = k + 2 := ⟨fuel - 2, by omega⟩
      obtain ⟨r, hr, hitems⟩ := LoadDirsLoop_saved pmax h2 rest k
        (AddStringToList dirs p) hrest (by omega)
      refine ⟨r, ?_, by simp [hitems, AddStringToList_items]⟩
      rw [htext]
      unfold LoadDirsLoop
      rw [fgets_cut pmax p _ hno10 hne heq]
      simp only [trimNewline_of_clean p hclean, gt_iff_lt, hpos, if_true]
      unfold LoadDirsLoop
      rw [fgets_newline pmax _ (by omega)]
      simp only [trimNewline_newline, List.length_nil, gt_iff_lt, lt_self_iff_false, if_false]
      exact hr

/-! ## Lemmas on `newdir` and `removedir` -/

theorem findDir_iff (cmd : CStr) : ∀ (items : List CStr), findDir cmd items = true ↔ cmd ∈ items
  | [] => by simp [findDir]
  | item :: rest => by
    by_cases h : item = cmd
    · simp [findDir, h]
    · have ih := findDir_iff cmd rest
      simp [findDir, h, ih, Ne.symm h]

theorem shiftItems_cons (a : CStr) : ∀ (fuel : Nat) (l : List CStr) (i : Nat),
    shiftItems (a :: l) fuel (i + 1) = a :: shiftItems l fuel i
  | 0, _, _ => rfl
  | fuel + 1, l, i => by
    unfold shiftItems
    by_cases h : i < l.length - 1
    · have h1 : i + 1 < (a :: l).length - 1 := by simp; omega
      simp only [h, h1, if_true, List.set_cons_succ, List.getD_cons_succ]
      exact shiftItems_cons a fuel _ (i + 1)
    · have h1 : ¬ i + 1 < (a :: l).length - 1 := by simp; omega
      simp only [h, h1, if_false]

theorem shiftItems_front : ∀ (l : List CStr) (x : CStr) (fuel : Nat), l.length ≤ fuel →
    (shiftItems (x :: l) fuel 0).take l.length = l
  | [], _, _, _ => by simp
  | b :: l, x, 0, h => by simp at h
  | b :: l, x, fuel + 1, h => by
    unfold shiftItems
    have h1 : 0 < (x :: b :: l).length - 1 := by simp
    simp only [h1, if_true, List.set_cons_zero]
    have hg : (x :: b :: l).getD (0 + 1) [] = b := by simp
    rw [hg, shiftItems_cons]
    have ih := shiftItems_front l b fuel (by simpa using h)
    simp [ih]

theorem shiftItems_eraseIdx : ∀ (l : List CStr) (idx fuel : Nat), idx < l.length →
    l.length ≤ fuel → (shiftItems l fuel idx).take (l.length - 1) = l.eraseIdx idx
  | [], _, _, h, _ => by simp at h
  | a :: l, 0, fuel, _, hf => by
    have := shiftItems_front l a fuel (by simp at hf; omega)
    simpa using this
  | a :: l, idx + 1, fuel, h, hf => by
    have hl : idx < l.length := by simpa using h
    have ih := shiftItems_eraseIdx l idx fuel hl (by simp at hf; omega)
    rw [shiftItems_cons]
    obtain ⟨k, hk⟩ : ∃ k, l.length = k + 1 := ⟨l.length - 1, by omega⟩
    have e : (a :: l).length - 1 = (l.length - 1) + 1 := by simp; omega
    rw [e, List.take_succ_cons, ih]
    rfl

theorem removeAt_items (dirs : StringList) (idx : Nat) (h : idx < dirs.count) :
    (removeAt dirs idx).items = dirs.items.eraseIdx idx := by
  unfold removeAt StringList.count
  exact shiftItems_eraseIdx dirs.items idx dirs.items.length h (le_refl _)

theorem findPathIndex_none (cmd : CStr) : ∀ (items : List CStr) (i : Nat),
    findPathIndex cmd items i = none ↔ cmd ∉ items
  | [], _ => by simp [findPathIndex]
  | item :: rest, i => by
    by_cases h : item = cmd
    · simp [findPathIndex, h]
    · have ih := findPathIndex_none cmd rest (i + 1)
      simp [findPathIndex, h, ih, Ne.symm h]

theorem findPathIndex_some (cmd : CStr) : ∀ (items : List CStr) (i j : Nat),
    findPathIndex cmd items i = some j →
      i ≤ j ∧ j - i < items.length ∧ items.eraseIdx (j - i) = items.erase cmd ∧
        items[j - i]? = some cmd ∧ ∀ k, k < j - i → items[k]? ≠ some cmd
  | [], _, _, h => by simp [findPathIndex] at h
  | item :: rest, i, j, h => by
    by_cases hc : item = cmd
    · simp [findPathIndex, hc] at h
      subst h
      subst hc
      simp
    · simp only [findPathIndex, hc, if_false] at h
      obtain ⟨h1, h2, h3, h4, h5⟩ := findPathIndex_some cmd rest (i + 1) j h
      have e : j - i = (j - (i + 1)) + 1 := by omega
      refine ⟨by omega, ?_, ?_, ?_, ?_⟩
      · rw [e]; simpa using h2
      · rw [e, List.eraseIdx_cons_succ, h3]
        have hbeq : (item == cmd) = false := by simpa using hc
        rw [List.erase_cons, hbeq]
        simp
      · rw [e]; simpa using h4
      · intro k hk
        cases k with
        | zero => simpa using hc
        | succ k => simpa using h5 k (by omega)

theorem strtolDigits_digits : ∀ (ds : List Nat) (acc : Nat), (∀ d ∈ ds, d < 10) →
    strtolDigits acc (ds.map (· + 48)) = acc * 10 ^ ds.length + Nat.ofDigits 10 ds.reverse
  | [], acc, _ => by simp [strtolDigits]
  | d :: ds, acc, h => by
    have hd : d < 10 := h d (List.mem_cons_self _ _)
    have ih := strtolDigits_digits ds (acc * 10 + d)
      (fun x hx => h x (List.mem_cons_of_mem _ hx))
    have hdig : isdigit (d + 48) = true := by simp [isdigit]; omega
    simp only [List.map_cons, strtolDigits, hdig, if_true, Nat.add_sub_cancel, ih,
      List.reverse_cons, Nat.ofDigits_append, List.length_reverse, List.length_cons,
      Nat.ofDigits_singleton]
    ring

theorem strtol_digits (ds : List Nat) (hne : ds ≠ []) (hds : ∀ d ∈ ds, d < 10)
    (hsmall : ((Nat.ofDigits 10 ds.reverse : Nat) : Int) ≤ LONG_MAX) :
    strtol (ds.map (· + 48)) = ((Nat.ofDigits 10 ds.reverse : Nat) : Int) := by
  obtain ⟨d, rest, rfl⟩ := List.exists_cons_of_ne_nil hne
  have hd : d < 10 := hds d (List.mem_cons_self _ _)
  have hval := strtolDigits_digits (d :: rest) 0 hds
  have hsp : isspace (d + 48) = false := by simp [isspace]
  have h45 : d + 48 ≠ 45 := by omega
  have h43 : d + 48 ≠ 43 := by omega
  unfold strtol
  simp only [List.map_cons, List.dropWhile_cons, hsp]
  simp only [List.map_cons] at hval
  split
  · rename_i heq; simp at heq
  · rename_i heq; simp at heq
  · simp only [Bool.false_eq_true, if_false, hval, zero_mul, zero_add]
    exact min_eq_left hsmall

/-! ## The directory list: claims C1 to C6 -/

/-- C1: for a list `s` of held paths and a line read at the `newdir` prompt
whose trimmed text `d` names an existing directory and is not in `s`, the
command succeeds, the list becomes `s` followed by `d` (so `d` occurs exactly
once), `SaveDirs` is called once for that list, and the text `SaveDirs`
writes for it loads back with `LoadDirs` as exactly `s` followed by `d`. The
empty path names no directory (`stat` fails on it). -/
theorem C1_newdir_appends_and_persists (pmax : Nat) (fs : FileSys) (openOk : Bool)
    (s : StringList) (store : Option (List Nat)) (stdin line rest : List Nat)
    (hs : ∀ p ∈ s.items, HeldPath pmax p)
    (hposix : fs.stat [] = none)
    (hread : fgets pmax stdin = some (line, rest))
    (hdir : statIsDir fs (trimNewline line) = true)
    (hnew : trimNewline line ∉ s.items) :
    (newdirBranch pmax fs openOk s store stdin).outcome = NewdirOutcome.added ∧
    (newdirBranch pmax fs openOk s store stdin).dirs.items = s.items ++ [trimNewline line] ∧
    (newdirBranch pmax fs openOk s store stdin).dirs.items.count (trimNewline line) = 1 ∧
    (newdirBranch pmax fs openOk s store stdin).saveCalls = 1 ∧
    (newdirBranch pmax fs openOk s store stdin).store =
      SaveDirs openOk store (newdirBranch pmax fs openOk s store stdin).dirs ∧
    ∃ r, LoadDirs pmax
        (SaveDirs true store (newdirBranch pmax fs openOk s store stdin).dirs) = some r ∧
      r.items = s.items ++ [trimNewline line] := by
  have hfind : findDir (trimNewline line) s.items = false := by
    cases hf : findDir (trimNewline line) s.items with
    | false => rfl
    | true => exact absurd ((findDir_iff _ _).mp hf) hnew
  have hbranch : newdirBranch pmax fs openOk s store stdin =
      { outcome := NewdirOutcome.added, dirs := AddStringToList s (trimNewline line),
        store := SaveDirs openOk store (AddStringToList s (trimNewline line)),
        saveCalls := 1 } := by
    simp [newdirBranch, hread, newdirCmd, hdir, hfind]
  have hdne : trimNewline line ≠ [] := by
    intro h
    rw [h] at hdir
    simp [statIsDir, hposix] at hdir
  have h2 : 2 ≤ pmax := by
    by_contra hlt
    have hcases : pmax = 0 ∨ pmax = 1 := by omega
    rcases hcases with h | h
    · simp [fgets, h] at hread
    · simp [fgets, h] at hread
      have hl : line = [] := hread.1
      rw [hl] at hdne
      exact hdne (show trimNewline [] = [] by decide)
  have hlen : (trimNewline line).length < pmax := by
    have h1 := (fgets_rest_shorter pmax h2 stdin line rest hread).2
    have h3 := trimNewline_length_le line
    omega
  have hheld : ∀ p ∈ s.items ++ [trimNewline line], HeldPath pmax p := by
    intro p hp
    rcases List.mem_append.mp hp with hp | hp
    · exact hs p hp
    · simp at hp
      subst hp
      exact ⟨hdne, hlen, trimNewline_clean line⟩
  rw [hbranch]
  refine ⟨rfl, rfl, ?_, rfl, rfl, ?_⟩
  · simp [AddStringToList_items, List.count_eq_zero_of_not_mem hnew]
  · obtain ⟨r, hr, hitems⟩ := LoadDirsLoop_saved pmax h2 (s.items ++ [trimNewline line])
      ((SaveDirsText (s.items ++ [trimNewline line])).length + 1) InitStringList hheld
      (by omega)
    refine ⟨r, ?_, by simpa [InitStringList] using hitems⟩
    simpa [SaveDirs, LoadDirs, AddStringToList_items] using hr

/-- C2: for every list `s` and every path `d` given to `newdir`, the command
fails exactly when `d` is not an existing directory or `d` is already in `s`
(compared as strings): the first gives the invalid-path outcome, the second
the already-in-list outcome; on either failure the list in memory and the
store are unchanged and `SaveDirs` is not called. -/
theorem C2_newdir_fails_iff (fs : FileSys) (openOk : Bool) (s : StringList)
    (store : Option (List Nat)) (d : CStr) :
    ((newdirCmd fs openOk s store d).outcome ≠ NewdirOutcome.added ↔
      (statIsDir fs d = false ∨ d ∈ s.items)) ∧
    ((newdirCmd fs openOk s store d).outcome = NewdirOutcome.invalidPath ↔
      statIsDir fs d = false) ∧
    ((newdirCmd fs openOk s store d).outcome = NewdirOutcome.alreadyInList ↔
      (statIsDir fs d = true ∧ d ∈ s.items)) ∧
    ((newdirCmd fs openOk s store d).outcome ≠ NewdirOutcome.added →
      (newdirCmd fs openOk s store d).dirs = s ∧
      (newdirCmd fs openOk s store d).store = store ∧
      (newdirCmd fs openOk s store d).saveCalls = 0) := by
  unfold newdirCmd
  cases hdir : statIsDir fs d with
  | false => simp
  | true =>
    cases hf : findDir d s.items with
    | true =>
      have hm : d ∈ s.items := (findDir_iff _ _).mp hf
      simp [hm]
    | false =>
      have hm : d ∉ s.items := fun h => by
        have := (findDir_iff d s.items).mpr h
        rw [hf] at this
        exact Bool.false_ne_true this
      simp [hm]

/-- Witness of C2: `/a` is a directory already in the list, `b` is not a
directory. -/
theorem C2_newdir_witness :
    (newdirCmd twoDirsFs true oneDir none aPath).outcome = NewdirOutcome.alreadyInList ∧
    (newdirCmd twoDirsFs true oneDir none [98]).outcome = NewdirOutcome.invalidPath ∧
    (newdirCmd twoDirsFs true oneDir none aPath).dirs = oneDir ∧
    (newdirCmd twoDirsFs true oneDir none aPath).saveCalls = 0 :=
  ⟨(C2_newdir_fails_iff twoDirsFs true oneDir none aPath).2.2.1.mpr (by decide),
    (C2_newdir_fails_iff twoDirsFs true oneDir none [98]).2.1.mpr (by decide),
    ((C2_newdir_fails_iff twoDirsFs true oneDir none aPath).2.2.2 (by decide)).1,
    ((C2_newdir_fails_iff twoDirsFs true oneDir none aPath).2.2.2 (by decide)).2.2⟩

/-- C3: for a list `s` of `n` held directories (`n` fits the `int` field
`count`) and a selector that is the decimal text of an integer `i` with
`1 ≤ i ≤ n` (digits `ds`, most significant first), `removedir` removes by
index: the new list has length `n - 1` and is `s` without the element at
1-based position `i`; the elements before it keep their place, the elements
after it move down by one. The new list is then saved: `SaveDirs` is called
once on it, and when `dirs.txt` can be opened for writing the store holds
afterwards exactly one line per remaining directory, in order, and loads
back with `LoadDirs` as the new list. -/
theorem C3_removedir_by_index (pmax : Nat) (openOk : Bool) (s : StringList)
    (store : Option (List Nat)) (ds : List Nat) (i : Nat)
    (hs : ∀ p ∈ s.items, HeldPath pmax p)
    (hcount : s.count < 2 ^ 31)
    (hne : ds ≠ []) (hds : ∀ d ∈ ds, d < 10) (hval : Nat.ofDigits 10 ds.reverse = i)
    (h1 : 1 ≤ i) (hn : i ≤ s.count) :
    (removedirCmd openOk s store (ds.map (· + 48))).outcome =
      RemoveOutcome.removedByIndex (i - 1) ∧
    (removedirCmd openOk s store (ds.map (· + 48))).dirs.items = s.items.eraseIdx (i - 1) ∧
    (removedirCmd openOk s store (ds.map (· + 48))).dirs.count = s.count - 1 ∧
    (∀ k, k + 1 < i →
      (removedirCmd openOk s store (ds.map (· + 48))).dirs.items[k]? = s.items[k]?) ∧
    (∀ k, i ≤ k + 1 →
      (removedirCmd openOk s store (ds.map (· + 48))).dirs.items[k]? = s.items[k + 1]?) ∧
    (removedirCmd openOk s store (ds.map (· + 48))).saveCalls = 1 ∧
    (removedirCmd openOk s store (ds.map (· + 48))).store =
      SaveDirs openOk store (removedirCmd openOk s store (ds.map (· + 48))).dirs ∧
    (removedirCmd true s store (ds.map (· + 48))).store =
      some (SaveDirsText (s.items.eraseIdx (i - 1))) ∧
    ∃ r, LoadDirs pmax (removedirCmd true s store (ds.map (· + 48))).store = some r ∧
      r.items = s.items.eraseIdx (i - 1) := by
  have hsmall : ((Nat.ofDigits 10 ds.reverse : Nat) : Int) ≤ LONG_MAX := by
    rw [hval]
    unfold LONG_MAX
    have : (2 : Nat) ^ 31 = 2147483648 := by norm_num
    omega
  have hstr := strtol_digits ds hne hds hsmall
  rw [hval] at hstr
  have hidx : wrapLong (strtol (ds.map (· + 48)) - 1) = ((i - 1 : Nat) : Int) := by
    rw [hstr]
    unfold wrapLong
    have : (2 : Nat) ^ 31 = 2147483648 := by norm_num
    omega
  have hlt : i - 1 < s.count := by omega
  have hbranch : ∀ ok : Bool, removedirCmd ok s store (ds.map (· + 48)) =
      { outcome := RemoveOutcome.removedByIndex (i - 1), dirs := removeAt s (i - 1),
        store := SaveDirs ok store (removeAt s (i - 1)), saveCalls := 1 } := by
    intro ok
    unfold removedirCmd
    simp only [hidx]
    have hc : (0 : Int) ≤ ((i - 1 : Nat) : Int) ∧ ((i - 1 : Nat) : Int) < (s.count : Int) := by
      constructor <;> omega
    simp only [hc, and_self, if_true, Int.toNat_ofNat]
  have hitems := removeAt_items s (i - 1) hlt
  have hstore : (removedirCmd true s store (ds.map (· + 48))).store =
      some (SaveDirsText (s.items.eraseIdx (i - 1))) := by
    rw [hbranch true]
    simp only [SaveDirs, if_true, hitems]
  have h2 : 2 ≤ pmax := by
    have hpos : 0 < s.items.length := by unfold StringList.count at hn; omega
    obtain ⟨hne0, hlen0, _⟩ := hs _ (List.getElem_mem hpos)
    have := List.length_pos.mpr hne0
    omega
  have hheld : ∀ p ∈ s.items.eraseIdx (i - 1), HeldPath pmax p :=
    fun p hp => hs p ((List.eraseIdx_sublist s.items (i - 1)).subset hp)
  obtain ⟨r, hr, hri⟩ := LoadDirsLoop_saved pmax h2 (s.items.eraseIdx (i - 1))
    ((SaveDirsText (s.items.eraseIdx (i - 1))).length + 1) InitStringList hheld (by omega)
  refine ⟨?_, ?_, ?_, ?_, ?_, ?_, ?_, hstore, ?_⟩
  · rw [hbranch openOk]
  · rw [hbranch openOk]; exact hitems
  · rw [hbranch openOk]
    simp only [StringList.count, hitems]
    rw [List.length_eraseIdx_of_lt (by simpa [StringList.count] using hlt)]
  · intro k hk
    rw [hbranch openOk]
    simp only [hitems]
    exact List.getElem?_eraseIdx_of_lt _ _ _ (by omega)
  · intro k hk
    rw [hbranch openOk]
    simp only [hitems]
    exact List.getElem?_eraseIdx_of_ge _ _ _ (by omega)
  · rw [hbranch openOk]
  · rw [hbranch openOk]
  · rw [hstore]
    exact ⟨r, by simpa [LoadDirs] using hr, by simpa [InitStringList] using hri⟩

/-- C5: round trip. For every list of paths in which each path is not empty,
has no carriage return, line feed (or NUL) and is shorter than `PATH_MAX`,
`LoadDirs` applied to the text written by `SaveDirs` returns a result (the
read loop ends) holding exactly the same list, with the same count. -/
theorem C5_save_load_roundtrip (pmax : Nat) (h2 : 2 ≤ pmax) (dirs : StringList)
    (store : Option (List Nat))
    (h : ∀ p ∈ dirs.items, p ≠ [] ∧ p.length < pmax ∧ ∀ c ∈ p, c ≠ 0 ∧ c ≠ 13 ∧ c ≠ 10) :
    SaveDirs true store dirs = some (SaveDirsText dirs.items) ∧
    ∃ r, LoadDirs pmax (SaveDirs true store dirs) = some r ∧
      r.items = dirs.items ∧ r.count = dirs.count := by
  obtain ⟨r, hr, hitems⟩ := LoadDirsLoop_saved pmax h2 dirs.items
    ((SaveDirsText dirs.items).length + 1) InitStringList h (by omega)
  have hi : r.items = dirs.items := by simpa [InitStringList] using hitems
  refine ⟨rfl, r, ?_, hi, ?_⟩
  · simpa [SaveDirs, LoadDirs] using hr
  · simp [StringList.count, hi]

theorem decimal_digits_selector (i : Nat) (h1 : 1 ≤ i) :
    (Nat.digits 10 i).reverse ≠ [] ∧ (∀ d ∈ (Nat.digits 10 i).reverse, d < 10) ∧
    Nat.ofDigits 10 ((Nat.digits 10 i).reverse).reverse = i := by
  refine ⟨?_, ?_, ?_⟩
  · intro h
    have h0 : Nat.digits 10 i = [] := by simpa using h
    exact absurd (Nat.digits_eq_nil_iff_eq_zero.mp h0) (by omega)
  · intro d hd
    exact Nat.digits_lt_base (by norm_num) (List.mem_reverse.mp hd)
  · rw [List.reverse_reverse, Nat.ofDigits_digits]

theorem newdirBranch_held (pmax : Nat) (fs : FileSys) (openOk : Bool) (s : StringList)
    (store : Option (List Nat)) (stdin : List Nat) (h2 : 2 ≤ pmax)
    (hposix : fs.stat [] = none) (hs : ∀ p ∈ s.items, HeldPath pmax p) :
    ∀ p ∈ (newdirBranch pmax fs openOk s store stdin).dirs.items, HeldPath pmax p := by
  unfold newdirBranch
  cases hread : fgets pmax stdin with
  | none => exact hs
  | some lr =>
    obtain ⟨line, rest⟩ := lr
    simp only [newdirCmd]
    cases hdir : statIsDir fs (trimNewline line) with
    | false => exact hs
    | true =>
      cases hf : findDir (trimNewline line) s.items with
      | true => exact hs
      | false =>
        simp only [Bool.not_true, Bool.false_eq_true, if_false, AddStringToList_items]
        intro p hp
        rcases List.mem_append.mp hp with hp | hp
        · exact hs p hp
        · simp at hp
          subst hp
          refine ⟨?_, ?_, trimNewline_clean line⟩
          · intro h
            rw [h] at hdir
            simp [statIsDir, hposix] at hdir
          · have h1 := (fgets_rest_shorter pmax h2 stdin line rest hread).2
            have h3 := trimNewline_length_le line
            omega

/-- Witness of C1: typing `/tmp` at the `newdir` prompt when the list holds `/a`. -/
theorem C1_newdir_witness :
    (∀ p ∈ oneDir.items, HeldPath PATH_MAX p) ∧ twoDirsFs.stat [] = none ∧
    fgets PATH_MAX (tmpPath ++ [10]) = some (tmpPath ++ [10], []) ∧
    statIsDir twoDirsFs (trimNewline (tmpPath ++ [10])) = true ∧
    trimNewline (tmpPath ++ [10]) ∉ oneDir.items ∧
    (newdirBranch PATH_MAX twoDirsFs true oneDir none (tmpPath ++ [10])).dirs.items =
      oneDir.items ++ [trimNewline (tmpPath ++ [10])] :=
  ⟨by decide, by decide, by decide, by decide, by decide,
    (C1_newdir_appends_and_persists PATH_MAX twoDirsFs true oneDir none (tmpPath ++ [10])
      (tmpPath ++ [10]) [] (by decide) (by decide) (by decide) (by decide) (by decide)).2.1⟩

/-- Witness of C3: the selector `2` on the list `/a`, `/tmp`, `b`; the store
afterwards holds the lines `/a` and `b`. -/
theorem C3_removedir_witness :
    (∀ p ∈ threeDirs.items, HeldPath PATH_MAX p) ∧
    threeDirs.count < 2 ^ 31 ∧ ([2] : List Nat) ≠ [] ∧ (∀ d ∈ ([2] : List Nat), d < 10) ∧
    Nat.ofDigits 10 ([2] : List Nat).reverse = 2 ∧ 1 ≤ 2 ∧ 2 ≤ threeDirs.count ∧
    (removedirCmd true threeDirs none (([2] : List Nat).map (· + 48))).dirs.items =
      threeDirs.items.eraseIdx (2 - 1) ∧
    (removedirCmd true threeDirs none (([2] : List Nat).map (· + 48))).store =
      some (SaveDirsText (threeDirs.items.eraseIdx (2 - 1))) ∧
    SaveDirsText (threeDirs.items.eraseIdx (2 - 1)) = [47, 97, 10, 98, 10] :=
  ⟨by decide, by decide, by decide, by decide, by decide, by decide, by decide,
    (C3_removedir_by_index PATH_MAX true threeDirs none [2] 2 (by decide) (by decide)
      (by decide) (by decide) (by decide) (by decide) (by decide)).2.1,
    (C3_removedir_by_index PATH_MAX true threeDirs none [2] 2 (by decide) (by decide)
      (by decide) (by decide) (by decide) (by decide) (by decide)).2.2.2.2.2.2.2.1,
    by decide⟩

/-- Witness of C5: saving and loading the list `/a`, `/tmp`, `b`. -/
theorem C5_roundtrip_witness :
    2 ≤ PATH_MAX ∧
    (∀ p ∈ threeDirs.items,
      p ≠ [] ∧ p.length < PATH_MAX ∧ ∀ c ∈ p, c ≠ 0 ∧ c ≠ 13 ∧ c ≠ 10) ∧
    ∃ r, LoadDirs PATH_MAX (SaveDirs true none threeDirs) = some r ∧
      r.items = threeDirs.items ∧ r.count = threeDirs.count :=
  ⟨by decide, by decide,
    (C5_save_load_roundtrip PATH_MAX (by decide) threeDirs none (by decide)).2⟩

/-- C4, the code at the failing input: the list holds `/a` and `1dir`, the
selector is the path `1dir`, which is not a decimal integer. `strtol` converts
its leading digit, so the command removes by index the first entry `/a` and
keeps `1dir`; path matching would have removed `1dir`, which is in the list. -/
theorem C4_removedir_digit_prefix :
    strtol oneDirPath = 1 ∧
    findPathIndex oneDirPath digitDirs.items 0 = some 1 ∧
    (removedirCmd true digitDirs none oneDirPath).outcome = RemoveOutcome.removedByIndex 0 ∧
    (removedirCmd true digitDirs none oneDirPath).dirs.items = [oneDirPath] ∧
    (removedirCmd true digitDirs none oneDirPath).store = some (oneDirPath ++ [10]) := by
  decide

/-- C6, counterexample: a store with the line `a` twice loads as a list that
holds `a` twice. -/
theorem C6_LoadDirs_keeps_duplicates :
    ∃ r, LoadDirs PATH_MAX (some [97, 10, 97, 10]) = some r ∧
      r.items = [[97], [97]] ∧ ¬ r.items.Nodup :=
  ⟨{ items := [[97], [97]], capacity := 8 }, by decide, rfl, by decide⟩

theorem removedirCmd_items (openOk : Bool) (s : StringList) (store : Option (List Nat))
    (cmd : CStr) : ∃ k, (removedirCmd openOk s store cmd).dirs.items = s.items.eraseIdx k ∨
      (removedirCmd openOk s store cmd).dirs.items = s.items := by
  unfold removedirCmd
  by_cases hc : 0 ≤ wrapLong (strtol cmd - 1) ∧ wrapLong (strtol cmd - 1) < (s.count : Int)
  · refine ⟨(wrapLong (strtol cmd - 1)).toNat, Or.inl ?_⟩
    simp only [hc, and_self, if_true]
    exact removeAt_items s _ (by omega)
  · simp only [hc, if_false]
    cases hf : findPathIndex cmd s.items 0 with
    | none => exact ⟨0, Or.inr rfl⟩
    | some j =>
      obtain ⟨_, h2, _⟩ := findPathIndex_some cmd s.items 0 j hf
      exact ⟨j, Or.inl (removeAt_items s j (by simpa [StringList.count] using h2))⟩

theorem removedirCmd_held (pmax : Nat) (openOk : Bool) (s : StringList)
    (store : Option (List Nat)) (cmd : CStr) (hs : ∀ p ∈ s.items, HeldPath pmax p) :
    ∀ p ∈ (removedirCmd openOk s store cmd).dirs.items, HeldPath pmax p := by
  obtain ⟨k, hk | hk⟩ := removedirCmd_items openOk s store cmd
  · rw [hk]
    exact fun p hp => hs p ((List.eraseIdx_sublist s.items k).subset hp)
  · rw [hk]
    exact hs

/-- C6 as amended: `newdir` and `removedir` each take a list without
duplicates to a list without duplicates, and `LoadDirs` returns a list without
duplicates for the store that `SaveDirs` wrote from a list of held paths
without duplicates. -/
theorem C6_uniqueness_preserved (pmax : Nat) (h2 : 2 ≤ pmax) (fs : FileSys) (openOk : Bool)
    (s : StringList) (store : Option (List Nat)) (cmd : CStr) (hnd : s.items.Nodup) :
    (newdirCmd fs openOk s store cmd).dirs.items.Nodup ∧
    (removedirCmd openOk s store cmd).dirs.items.Nodup ∧
    ((∀ p ∈ s.items, HeldPath pmax p) →
      ∃ r, LoadDirs pmax (SaveDirs true store s) = some r ∧ r.items.Nodup) := by
  refine ⟨?_, ?_, ?_⟩
  · unfold newdirCmd
    cases hdir : statIsDir fs cmd with
    | false => simpa using hnd
    | true =>
      cases hf : findDir cmd s.items with
      | true => simpa using hnd
      | false =>
        have hm : cmd ∉ s.items := fun h => by
          have := (findDir_iff cmd s.items).mpr h
          rw [hf] at this
          exact Bool.false_ne_true this
        simp only [Bool.not_true, Bool.false_eq_true, if_false, AddStringToList_items]
        refine List.nodup_append.mpr ⟨hnd, List.nodup_singleton _, ?_⟩
        intro a ha hb
        have hac : a = cmd := by simpa using hb
        exact hm (hac ▸ ha)
  · obtain ⟨k, hk | hk⟩ := removedirCmd_items openOk s store cmd
    · rw [hk]; exact hnd.eraseIdx k
    · rw [hk]; exact hnd
  · intro hheld
    obtain ⟨r, hr, hitems⟩ := LoadDirsLoop_saved pmax h2 s.items
      ((SaveDirsText s.items).length + 1) InitStringList hheld (by omega)
    refine ⟨r, by simpa [SaveDirs, LoadDirs] using hr, ?_⟩
    have hi : r.items = s.items := by simpa [InitStringList] using hitems
    rw [hi]; exact hnd

/-- Witness of C6 as amended: the list `/a`, `/tmp`, `b` and the command text `/tmp`. -/
theorem C6_uniqueness_witness :
    2 ≤ PATH_MAX ∧ threeDirs.items.Nodup ∧ (∀ p ∈ threeDirs.items, HeldPath PATH_MAX p) ∧
    (newdirCmd twoDirsFs true threeDirs none tmpPath).dirs.items.Nodup ∧
    (removedirCmd true threeDirs none tmpPath).dirs.items.Nodup ∧
    ∃ r, LoadDirs PATH_MAX (SaveDirs true none threeDirs) = some r ∧ r.items.Nodup :=
  ⟨by decide, by decide, by decide,
    (C6_uniqueness_preserved PATH_MAX (by decide) twoDirsFs true threeDirs none tmpPath
      (by decide)).1,
    (C6_uniqueness_preserved PATH_MAX (by decide) twoDirsFs true threeDirs none tmpPath
      (by decide)).2.1,
    (C6_uniqueness_preserved PATH_MAX (by decide) twoDirsFs true threeDirs none tmpPath
      (by decide)).2.2 (by decide)⟩

/-! ## The open command: claim C10 -/

theorem escapeChars_eq_flatMap : ∀ (p : CStr),
    escapeChars p = p.flatMap (fun c => if c = 39 then [39, 92, 39] else [c])
  | [] => rfl
  | c :: cs => by
    by_cases hc : c = 39
    · simp [escapeChars, hc, escapeChars_eq_flatMap cs]
    · simp [escapeChars, hc, escapeChars_eq_flatMap cs]

theorem escapeChars_length_le : ∀ (p : CStr), (escapeChars p).length ≤ 4 * p.length
  | [] => by simp [escapeChars]
  | c :: cs => by
    have ih := escapeChars_length_le cs
    by_cases hc : c = 39
    · simp [escapeChars, hc]; omega
    · simp [escapeChars, hc]; omega

theorem openCommand_not_cut (pmax : Nat) (p : CStr) (hlen : p.length < pmax) :
    (escapedPath p).length + 1 ≤ escapedAlloc p ∧
    openCommand pmax p = xdgOpen ++ escapedPath p := by
  have hle := escapeChars_length_le p
  constructor
  · simp [escapedPath, escapedAlloc]; omega
  · unfold openCommand
    apply List.take_of_length_le
    simp [xdgOpen, escapedPath, cmdSize]; omega

/-- C10, the code at the failing input. For the file path `/d/a'b` the
escape loop writes quote, backslash, quote for the single quote (three
bytes, not the four of the claim), so the escaped text is `'/d/a'\'b'`: the
shell reads `/d/a`, an escaped quote, `b`, and then a quote that is never
closed, and the command `HandleOpenCommand` runs does not split into words at
all. For the file in `/d` named `a`, quote, blank, `b`, backslash, the
escaped text splits into the two words `/d/a'` and `b'`: the blank of the
path is read by the shell as a separator, and the result is not the one word
equal to the path. -/
theorem C10_quote_escape_three_bytes :
    escapedPath quotePath = [39, 47, 100, 47, 97, 39, 92, 39, 98, 39] ∧
    escapedPath quotePath ≠ [39, 47, 100, 47, 97, 39, 92, 39, 39, 98, 39] ∧
    shellWords (escapedPath quotePath) = none ∧
    HandleOpenCommand PATH_MAX anyFileFs true (quotePath ++ [0]) =
      OpenOutcome.ran (xdgOpen ++ [39, 47, 100, 47, 97, 39, 92, 39, 98, 39]) ∧
    shellWords (xdgOpen ++ [39, 47, 100, 47, 97, 39, 92, 39, 98, 39]) = none ∧
    escapedPath quoteBlankPath = [39, 47, 100, 47, 97, 39, 92, 39, 32, 98, 92, 39] ∧
    shellWords (escapedPath quoteBlankPath) = some [[47, 100, 47, 97, 39], [98, 39]] ∧
    shellWords (escapedPath quoteBlankPath) ≠ some [quoteBlankPath] := by
  decide

/-! ## The random pick: claim C9 -/

theorem snprintf_path_ok (pmax : Nat) (basePath name : List Nat) :
    FilePathOk pmax (snprintf_path pmax basePath name) := by
  unfold FilePathOk snprintf_path
  constructor
  · intro c hc
    have hm := List.mem_of_mem_take hc
    rcases List.mem_append.mp hm with h | h
    · rcases List.mem_append.mp h with h | h
      · exact cstr_nulFree _ c h
      · simp at h; omega
    · exact cstr_nulFree _ c h
  · exact List.length_take_le _ _

theorem AddStringToList_ok (pmax : Nat) (list : StringList) (str : CStr)
    (hl : ∀ f ∈ list.items, FilePathOk pmax f) (hs : FilePathOk pmax str) :
    ∀ f ∈ (AddStringToList list str).items, FilePathOk pmax f := by
  intro f hf
  rw [AddStringToList_items] at hf
  rcases List.mem_append.mp hf with h | h
  · exact hl f h
  · simp at h; subst h; exact hs

theorem scanEntries_ok (pmax : Nat) (fs : FileSys)
    (recurse : CStr → StringList → Option StringList)
    (hrec : ∀ path fl r, (∀ f ∈ fl.items, FilePathOk pmax f) → recurse path fl = some r →
      ∀ f ∈ r.items, FilePathOk pmax f) (basePath : CStr) :
    ∀ (entries : List Dirent) (fl r : StringList), (∀ f ∈ fl.items, FilePathOk pmax f) →
      scanEntries pmax fs recurse basePath entries fl = some r →
      ∀ f ∈ r.items, FilePathOk pmax f
  | [], fl, r, hfl, h => by
    simp only [scanEntries, Option.some.injEq] at h
    subst h; exact hfl
  | entry :: more, fl, r, hfl, h => by
    have ih := scanEntries_ok pmax fs recurse hrec basePath more
    have hadd := AddStringToList_ok pmax fl (snprintf_path pmax basePath entry.d_name) hfl
      (snprintf_path_ok pmax basePath entry.d_name)
    unfold scanEntries at h
    split at h
    · exact ih fl r hfl h
    · split at h
      · cases hr : recurse (snprintf_path pmax basePath entry.d_name) fl with
        | none => simp [hr] at h
        | some mid =>
          simp only [hr, Option.some_bind] at h
          exact ih mid r (hrec _ fl mid hfl hr) h
      · split at h
        · exact ih _ r hadd h
        · split at h
          · split at h
            · split at h
              · cases hr : recurse (snprintf_path pmax basePath entry.d_name) fl with
                | none => simp [hr] at h
                | some mid =>
                  simp only [hr, Option.some_bind] at h
                  exact ih mid r (hrec _ fl mid hfl hr) h
              · split at h
                · exact ih _ r hadd h
                · exact ih fl r hfl h
            · exact ih fl r hfl h
          · exact ih fl r hfl h

theorem GetAllFilesRecursive_ok (pmax : Nat) (fs : FileSys) :
    ∀ (fuel : Nat) (path : CStr) (fl r : StringList), (∀ f ∈ fl.items, FilePathOk pmax f) →
      GetAllFilesRecursive pmax fs fuel path fl = some r → ∀ f ∈ r.items, FilePathOk pmax f
  | 0, _, _, _, _, h => by simp [GetAllFilesRecursive] at h
  | fuel + 1, path, fl, r, hfl, h => by
    unfold GetAllFilesRecursive at h
    cases ho : fs.opendir path with
    | none =>
      simp only [ho, Option.some.injEq] at h
      subst h; exact hfl
    | some entries =>
      simp only [ho] at h
      exact scanEntries_ok pmax fs _ (GetAllFilesRecursive_ok pmax fs fuel) path entries fl r
        hfl h

theorem GetAllFilesLoop_ok (pmax : Nat) (fs : FileSys) (fuel : Nat) :
    ∀ (dirs : List CStr) (files r : StringList), (∀ f ∈ files.items, FilePathOk pmax f) →
      GetAllFilesLoop pmax fs fuel dirs files = some r → ∀ f ∈ r.items, FilePathOk pmax f
  | [], files, r, hf, h => by
    simp only [GetAllFilesLoop, Option.some.injEq] at h
    subst h; exact hf
  | dir :: rest, files, r, hf, h => by
    unfold GetAllFilesLoop at h
    split at h
    · cases hr : GetAllFilesRecursive pmax fs fuel dir files with
      | none => simp [hr] at h
      | some mid =>
        simp only [hr, Option.some_bind] at h
        exact GetAllFilesLoop_ok pmax fs fuel rest mid r
          (GetAllFilesRecursive_ok pmax fs fuel dir files mid hf hr) h
    · exact GetAllFilesLoop_ok pmax fs fuel rest files r hf h

theorem GetAllFiles_ok (pmax : Nat) (fs : FileSys) (fuel : Nat) (dirs files : StringList)
    (h : GetAllFiles pmax fs fuel dirs = some files) :
    ∀ f ∈ files.items, FilePathOk pmax f :=
  GetAllFilesLoop_ok pmax fs fuel dirs.items InitStringList files
    (by simp [InitStringList]) h

theorem strncpy_fits (pmax : Nat) (g : List Nat) (f : CStr) (hg : LastShownInv pmax g)
    (hf : FilePathOk pmax f) :
    strncpy g f (pmax - 1) = f ++ List.replicate (pmax - f.length) 0 := by
  obtain ⟨hlen, hlast⟩ := hg
  obtain ⟨hnul, hfl⟩ := hf
  have hp : 1 ≤ pmax := by
    by_contra hc
    have h0 : pmax = 0 := by omega
    rw [h0] at hlen
    have : g = [] := List.length_eq_zero.mp hlen
    rw [this] at hlast
    simp at hlast
  unfold strncpy
  rw [cstr_of_nulFree f hnul, List.take_of_length_le hfl, hlast]
  have e : pmax - f.length = (pmax - 1 - f.length) + 1 := by omega
  rw [e, List.replicate_succ', List.append_assoc]

theorem cstr_padded (f : CStr) (k : Nat) (hnul : ∀ c ∈ f, c ≠ 0) (hk : 0 < k) :
    cstr (f ++ List.replicate k 0) = f := by
  obtain ⟨j, rfl⟩ : ∃ j, k = j + 1 := ⟨k - 1, by omega⟩
  rw [List.replicate_succ]
  unfold cstr
  exact takeWhile_stop f 0 _ (fun c hc => by simpa using hnul c hc) (by simp)

theorem initLastShown_inv (pmax : Nat) (h : 1 ≤ pmax) :
    LastShownInv pmax (initLastShown pmax) := by
  unfold LastShownInv initLastShown
  refine ⟨List.length_replicate _ _, ?_⟩
  obtain ⟨k, rfl⟩ : ∃ k, pmax = k + 1 := ⟨pmax - 1, by omega⟩
  rw [List.replicate_succ']
  simp

theorem padded_inv (pmax : Nat) (f : CStr) (hp : 1 ≤ pmax) (hf : f.length ≤ pmax - 1) :
    LastShownInv pmax (f ++ List.replicate (pmax - f.length) 0) := by
  unfold LastShownInv
  constructor
  · simp; omega
  · have e : pmax - f.length = (pmax - 1 - f.length) + 1 := by omega
    rw [e, List.replicate_succ', ← List.append_assoc]
    exact List.drop_left' (by simp; omega)

/-- C9: for every result `files` of the enumeration, every value `r` of
`rand()` and every state `g` of the buffer `g_LastShownFile`: when `files`
is empty the pick reports that no files were found and leaves the buffer as
it was; when `files` is not empty the index `r % count` is below `count`, the
pick is the element `f` of `files` at that index, and afterwards the buffer
reads as exactly `f`: it holds `f` followed only by NUL bytes, so `f` is not
cut and no byte of an earlier value is left, and the buffer keeps its
invariant. For `files = [f]` the pick is `f`. -/
theorem C9_pick_sets_last_shown (pmax : Nat) (fs : FileSys) (fuel : Nat)
    (dirs files : StringList) (r : Nat) (g : List Nat)
    (hfiles : GetAllFiles pmax fs fuel dirs = some files)
    (hg : LastShownInv pmax g) :
    (files.count = 0 → pickFile pmax files r g = (EnterOutcome.noFiles, g)) ∧
    (0 < files.count →
      r % files.count < files.count ∧
      ∃ f, files.items[r % files.count]? = some f ∧ f ∈ files.items ∧
        (pickFile pmax files r g).1 = EnterOutcome.shown f ∧
        cstr (pickFile pmax files r g).2 = f ∧
        (pickFile pmax files r g).2 = f ++ List.replicate (pmax - f.length) 0 ∧
        LastShownInv pmax (pickFile pmax files r g).2) ∧
    (∀ f, files.items = [f] →
      (pickFile pmax files r g).1 = EnterOutcome.shown f ∧
      cstr (pickFile pmax files r g).2 = f) := by
  have hok := GetAllFiles_ok pmax fs fuel dirs files hfiles
  have hmain : 0 < files.count →
      r % files.count < files.count ∧
      ∃ f, files.items[r % files.count]? = some f ∧ f ∈ files.items ∧
        (pickFile pmax files r g).1 = EnterOutcome.shown f ∧
        cstr (pickFile pmax files r g).2 = f ∧
        (pickFile pmax files r g).2 = f ++ List.replicate (pmax - f.length) 0 ∧
        LastShownInv pmax (pickFile pmax files r g).2 := by
    intro hpos
    have hidx : r % files.count < files.count := Nat.mod_lt _ hpos
    have hidx2 : r % files.count < files.items.length := hidx
    refine ⟨hidx, files.items[r % files.count], List.getElem?_eq_getElem hidx2,
      List.getElem_mem hidx2, ?_⟩
    have hfok := hok _ (List.getElem_mem hidx2)
    have hcopy := strncpy_fits pmax g _ hg hfok
    have hne : ¬ files.count = 0 := by omega
    have hget : files.items.getD (r % files.count) [] = files.items[r % files.count] :=
      List.getD_eq_getElem _ _ hidx2
    have hp : 1 ≤ pmax := by
      by_contra hc
      have h0 : pmax = 0 := by omega
      obtain ⟨hl, hd⟩ := hg
      rw [h0] at hl
      rw [List.length_eq_zero.mp hl] at hd
      simp at hd
    have hpad : 0 < pmax - (files.items[r % files.count]).length := by
      have := hfok.2
      omega
    have hread := cstr_padded _ _ hfok.1 hpad
    simp only [pickFile, hne, if_false, hget, hcopy, hread, true_and]
    exact padded_inv pmax _ hp hfok.2
  refine ⟨?_, hmain, ?_⟩
  · intro h0
    simp [pickFile, h0]
  · intro f hf
    have hcount : files.count = 1 := by simp [StringList.count, hf]
    obtain ⟨_, f2, hf2, _, h1, h2, _⟩ := hmain (by omega)
    have : f2 = f := by
      rw [hcount, Nat.mod_one, hf] at hf2
      simpa using hf2.symm
    subst this
    exact ⟨h1, h2⟩

/-- Witness of C9: picking from the two files of `/a` with `rand()` giving 7. -/
theorem C9_pick_witness :
    GetAllFiles PATH_MAX smallFs 3 oneDir = some smallFiles ∧
    LastShownInv PATH_MAX (initLastShown PATH_MAX) ∧
    cstr (pickFile PATH_MAX smallFiles 7 (initLastShown PATH_MAX)).2 =
      [47, 97, 47, 115, 47, 121] :=
  ⟨by decide, initLastShown_inv PATH_MAX (by decide),
    by
      have h := (C9_pick_sets_last_shown PATH_MAX smallFs 3 oneDir smallFiles 7
        (initLastShown PATH_MAX) (by decide) (initLastShown_inv PATH_MAX (by decide))).2.1
        (by decide)
      obtain ⟨_, f, hf, _, _, hc, _⟩ := h
      have hf2 : f = [47, 97, 47, 115, 47, 121] := by
        have : smallFiles.items[7 % smallFiles.count]? = some [47, 97, 47, 115, 47, 121] := by
          decide
        rw [this] at hf
        exact (Option.some.inj hf).symm
      rw [hc, hf2]⟩

/-! ## The enumeration over a directory tree: claims C7 and C8 -/

theorem S_ISREG_not_dir (m : Nat) (h : S_ISREG m = true) : S_ISDIR m = false := by
  unfold S_ISREG at h
  unfold S_ISDIR
  have h1 : Nat.land m S_IFMT = S_IFREG := by simpa using h
  rw [h1]
  decide

theorem S_ISDIR_not_reg (m : Nat) (h : S_ISDIR m = true) : S_ISREG m = false := by
  unfold S_ISDIR at h
  unfold S_ISREG
  have h1 : Nat.land m S_IFMT = S_IFDIR := by simpa using h
  rw [h1]
  decide

theorem scanEntries_skip_dots (pmax : Nat) (fs : FileSys)
    (recurse : CStr → StringList → Option StringList) (basePath : CStr) :
    ∀ (entries : List Dirent),
      scanEntries pmax fs recurse basePath entries =
        scanEntries pmax fs recurse basePath
          (entries.filter (fun e => !(isDotEntry e.d_name)))
  | [] => rfl
  | entry :: more => by
    have ih := scanEntries_skip_dots pmax fs recurse basePath more
    funext fl
    by_cases hdot : isDotEntry entry.d_name = true
    · have hf : (entry :: more).filter (fun e => !(isDotEntry e.d_name)) =
          more.filter (fun e => !(isDotEntry e.d_name)) := by
        simp [List.filter, hdot]
      rw [hf, ← ih]
      simp [scanEntries, hdot]
    · have hf : (entry :: more).filter (fun e => !(isDotEntry e.d_name)) =
          entry :: more.filter (fun e => !(isDotEntry e.d_name)) := by
        simp [List.filter, hdot]
      rw [hf]
      simp only [scanEntries, ← ih]

theorem scanEntries_dir_step (pmax : Nat) (fs : FileSys)
    (recurse : CStr → StringList → Option StringList) (basePath : CStr) (entry : Dirent)
    (more : List Dirent) (fl : StringList) (hdot : isDotEntry entry.d_name = false)
    (hdir : entry.d_type = DT_DIR ∨ (entry.d_type = DT_UNKNOWN ∧
      statIs fs S_ISDIR (snprintf_path pmax basePath entry.d_name) = true)) :
    scanEntries pmax fs recurse basePath (entry :: more) fl =
      (recurse (snprintf_path pmax basePath entry.d_name) fl).bind
        (scanEntries pmax fs recurse basePath more) := by
  rcases hdir with h | ⟨h, hs⟩
  · simp [scanEntries, hdot, h]
  · have h1 : ¬ DT_UNKNOWN = DT_DIR := by decide
    have h2 : ¬ DT_UNKNOWN = DT_REG := by decide
    unfold statIs at hs
    cases hst : fs.stat (snprintf_path pmax basePath entry.d_name) with
    | none => simp [hst] at hs
    | some m =>
      simp only [hst] at hs
      simp [scanEntries, hdot, h, h1, h2, hst, hs]

theorem scanEntries_reg_step (pmax : Nat) (fs : FileSys)
    (recurse : CStr → StringList → Option StringList) (basePath : CStr) (entry : Dirent)
    (more : List Dirent) (fl : StringList) (hdot : isDotEntry entry.d_name = false)
    (hreg : entry.d_type = DT_REG ∨ (entry.d_type = DT_UNKNOWN ∧
      statIs fs S_ISREG (snprintf_path pmax basePath entry.d_name) = true)) :
    scanEntries pmax fs recurse basePath (entry :: more) fl =
      scanEntries pmax fs recurse basePath more
        (AddStringToList fl (snprintf_path pmax basePath entry.d_name)) := by
  rcases hreg with h | ⟨h, hs⟩
  · have h1 : ¬ DT_REG = DT_DIR := by decide
    simp [scanEntries, hdot, h, h1]
  · have h1 : ¬ DT_UNKNOWN = DT_DIR := by decide
    have h2 : ¬ DT_UNKNOWN = DT_REG := by decide
    unfold statIs at hs
    cases hst : fs.stat (snprintf_path pmax basePath entry.d_name) with
    | none => simp [hst] at hs
    | some m =>
      simp only [hst] at hs
      simp [scanEntries, hdot, h, h1, h2, hst, hs, S_ISREG_not_dir m hs]

theorem scanEntries_other_step (pmax : Nat) (fs : FileSys)
    (recurse : CStr → StringList → Option StringList) (basePath : CStr) (entry : Dirent)
    (more : List Dirent) (fl : StringList) (hdot : isDotEntry entry.d_name = false)
    (h1 : entry.d_type ≠ DT_DIR) (h2 : entry.d_type ≠ DT_REG)
    (hother : entry.d_type = DT_UNKNOWN →
      statIs fs S_ISDIR (snprintf_path pmax basePath entry.d_name) = false ∧
      statIs fs S_ISREG (snprintf_path pmax basePath entry.d_name) = false) :
    scanEntries pmax fs recurse basePath (entry :: more) fl =
      scanEntries pmax fs recurse basePath more fl := by
  by_cases hu : entry.d_type = DT_UNKNOWN
  · obtain ⟨hd, hr⟩ := hother hu
    have h3 : ¬ DT_UNKNOWN = DT_DIR := by decide
    have h4 : ¬ DT_UNKNOWN = DT_REG := by decide
    unfold statIs at hd hr
    cases hst : fs.stat (snprintf_path pmax basePath entry.d_name) with
    | none => simp [scanEntries, hdot, hu, h3, h4, hst]
    | some m =>
      simp only [hst] at hd hr
      simp [scanEntries, hdot, hu, h3, h4, hst, hd, hr]
  · simp [scanEntries, hdot, h1, h2, hu]

theorem snprintf_path_fits (pmax : Nat) (base name : CStr) (hb : ∀ c ∈ base, c ≠ 0)
    (hn : name.contains 0 = false) (hlen : (joinPath base name).length < pmax) :
    snprintf_path pmax base name = joinPath base name := by
  have hn2 : ∀ c ∈ name, c ≠ 0 := by
    intro c hc h0
    subst h0
    have : name.contains 0 = true := by simpa using hc
    rw [hn] at this
    exact Bool.false_ne_true this
  unfold snprintf_path
  rw [cstr_of_nulFree base hb, cstr_of_nulFree name hn2]
  exact List.take_of_length_le (by unfold joinPath at hlen; omega)

theorem joinPath_nulFree (base name : CStr) (hb : ∀ c ∈ base, c ≠ 0)
    (hn : name.contains 0 = false) : ∀ c ∈ joinPath base name, c ≠ 0 := by
  intro c hc h0
  subst h0
  unfold joinPath at hc
  rcases List.mem_append.mp hc with h | h
  · rcases List.mem_append.mp h with h | h
    · exact hb 0 h rfl
    · simp at h
  · have : name.contains 0 = true := by simpa using h
    rw [hn] at this
    exact Bool.false_ne_true this

theorem opendirIs_scan (pmax : Nat) (fs : FileSys)
    (recurse : CStr → StringList → Option StringList) (path : CStr) (t : Tree)
    (h : opendirIs fs path t = true) :
    ∃ entries, fs.opendir path = some entries ∧
      scanEntries pmax fs recurse path entries = scanEntries pmax fs recurse path t.dirents := by
  unfold opendirIs at h
  cases ho : fs.opendir path with
  | none => simp [ho] at h
  | some entries =>
    simp only [ho] at h
    have he : entries.filter (fun e => !(isDotEntry e.d_name)) = t.dirents := by
      simpa using h
    exact ⟨entries, rfl, by rw [scanEntries_skip_dots, he]⟩

theorem scanEntries_tree (pmax : Nat) (fs : FileSys) :
    ∀ (t : Tree) (base : CStr) (fuel : Nat) (fl : StringList),
      (∀ c ∈ base, c ≠ 0) → t.agrees fs base = true → t.fits pmax base = true →
      t.depth ≤ fuel →
      ∃ r, scanEntries pmax fs (GetAllFilesRecursive pmax fs fuel) base t.dirents fl = some r ∧
        r.items = fl.items ++ t.filePaths base
  | .nil, base, fuel, fl, _, _, _, _ => ⟨fl, by simp [Tree.dirents, scanEntries, Tree.filePaths]⟩
  | .file name dt rest, base, fuel, fl, hb, ha, hf, hd => by
    simp only [Tree.agrees, Bool.and_eq_true, Bool.or_eq_true, beq_iff_eq] at ha
    obtain ⟨⟨⟨hname, hkind⟩, _⟩, harest⟩ := ha
    simp only [Tree.fits, Bool.and_eq_true, decide_eq_true_eq] at hf
    obtain ⟨hlen, hfrest⟩ := hf
    simp only [nameOk, Bool.and_eq_true, Bool.not_eq_true'] at hname
    obtain ⟨hnul, hdot⟩ := hname
    have hpath := snprintf_path_fits pmax base name hb hnul hlen
    obtain ⟨r, hr, hitems⟩ := scanEntries_tree pmax fs rest base fuel
      (AddStringToList fl (joinPath base name)) hb harest hfrest (by simpa [Tree.depth] using hd)
    refine ⟨r, ?_, by simp [hitems, AddStringToList_items, Tree.filePaths]⟩
    simp only [Tree.dirents]
    rw [scanEntries_reg_step pmax fs _ base _ _ fl hdot (by simpa [hpath] using hkind), hpath]
    exact hr
  | .other name dt rest, base, fuel, fl, hb, ha, hf, hd => by
    simp only [Tree.agrees, Bool.and_eq_true, Bool.or_eq_true, bne_iff_ne, ne_eq,
      Bool.not_eq_true'] at ha
    obtain ⟨⟨⟨⟨hname, hdt1, hdt2⟩, hunk⟩, _⟩, harest⟩ := ha
    simp only [Tree.fits, Bool.and_eq_true, decide_eq_true_eq] at hf
    obtain ⟨hlen, hfrest⟩ := hf
    simp only [nameOk, Bool.and_eq_true, Bool.not_eq_true'] at hname
    obtain ⟨hnul, hdot⟩ := hname
    have hpath := snprintf_path_fits pmax base name hb hnul hlen
    obtain ⟨r, hr, hitems⟩ := scanEntries_tree pmax fs rest base fuel fl hb harest hfrest
      (by simpa [Tree.depth] using hd)
    refine ⟨r, ?_, by simp [hitems, Tree.filePaths]⟩
    simp only [Tree.dirents]
    rw [scanEntries_other_step pmax fs _ base _ _ fl hdot hdt1 hdt2 ?_]
    · exact hr
    · intro hu
      rw [hpath]
      rcases hunk with h | h
      · exact absurd hu (by simpa using h)
      · exact h
  | .sub name dt children rest, base, fuel, fl, hb, ha, hf, hd => by
    simp only [Tree.agrees, Bool.and_eq_true, Bool.or_eq_true, beq_iff_eq] at ha
    obtain ⟨⟨⟨⟨⟨hname, hkind⟩, _⟩, hopen⟩, hachild⟩, harest⟩ := ha
    simp only [Tree.fits, Bool.and_eq_true, decide_eq_true_eq] at hf
    obtain ⟨⟨hlen, hfchild⟩, hfrest⟩ := hf
    simp only [nameOk, Bool.and_eq_true, Bool.not_eq_true'] at hname
    obtain ⟨hnul, hdot⟩ := hname
    have hpath := snprintf_path_fits pmax base name hb hnul hlen
    simp only [Tree.depth] at hd
    obtain ⟨k, rfl⟩ : ∃ k, fuel = k + 1 := ⟨fuel - 1, by omega⟩
    obtain ⟨mid, hmid, hmitems⟩ := scanEntries_tree pmax fs children (joinPath base name) k fl
      (joinPath_nulFree base name hb hnul) hachild hfchild (by omega)
    obtain ⟨r, hr, hitems⟩ := scanEntries_tree pmax fs rest base (k + 1) mid hb harest hfrest
      (by omega)
    obtain ⟨entries, hents, hscan⟩ := opendirIs_scan pmax fs (GetAllFilesRecursive pmax fs k)
      (joinPath base name) children hopen
    have hrec : GetAllFilesRecursive pmax fs (k + 1) (joinPath base name) fl = some mid := by
      rw [GetAllFilesRecursive]
      simp only [hents]
      rw [hscan]
      exact hmid
    refine ⟨r, ?_, by simp [hitems, hmitems, Tree.filePaths]⟩
    simp only [Tree.dirents]
    rw [scanEntries_dir_step pmax fs _ base _ _ fl hdot (by simpa [hpath] using hkind), hpath,
      hrec]
    exact hr

theorem filePaths_length : ∀ (t : Tree) (base : CStr), (t.filePaths base).length = t.countFiles
  | .nil, _ => rfl
  | .file _ _ rest, base => by
    simp [Tree.filePaths, Tree.countFiles, filePaths_length rest base]; omega
  | .other _ _ rest, base => by
    simp [Tree.filePaths, Tree.countFiles, filePaths_length rest base]
  | .sub name _ children rest, base => by
    simp [Tree.filePaths, Tree.countFiles, filePaths_length rest base,
      filePaths_length children (joinPath base name)]

theorem countFiles_split : ∀ (t : Tree), t.countFiles = t.directFiles + t.deepFiles
  | .nil => rfl
  | .file _ _ rest => by
    simp [Tree.countFiles, Tree.directFiles, Tree.deepFiles, countFiles_split rest]; omega
  | .other _ _ rest => by
    simp [Tree.countFiles, Tree.directFiles, Tree.deepFiles, countFiles_split rest]
  | .sub _ _ children rest => by
    simp [Tree.countFiles, Tree.directFiles, Tree.deepFiles, countFiles_split rest]; omega

theorem filePaths_regular (fs : FileSys) : ∀ (t : Tree) (base : CStr),
    t.agrees fs base = true → ∀ p ∈ t.filePaths base, lstatIs fs S_ISREG p = true
  | .nil, _, _, p, hp => by simp [Tree.filePaths] at hp
  | .file name dt rest, base, ha, p, hp => by
    simp only [Tree.agrees, Bool.and_eq_true] at ha
    simp only [Tree.filePaths, List.mem_cons] at hp
    rcases hp with hp | hp
    · rw [hp]; exact ha.1.2
    · exact filePaths_regular fs rest base ha.2 p hp
  | .other name dt rest, base, ha, p, hp => by
    simp only [Tree.agrees, Bool.and_eq_true] at ha
    exact filePaths_regular fs rest base ha.2 p (by simpa [Tree.filePaths] using hp)
  | .sub name dt children rest, base, ha, p, hp => by
    simp only [Tree.agrees, Bool.and_eq_true] at ha
    simp only [Tree.filePaths, List.mem_append] at hp
    rcases hp with hp | hp
    · exact filePaths_regular fs children (joinPath base name) ha.1.2 p hp
    · exact filePaths_regular fs rest base ha.2 p hp

theorem GetAllFilesLoop_nil (pmax : Nat) (fs : FileSys) (fuel : Nat) :
    GetAllFilesLoop pmax fs fuel [] = some := by
  funext files
  rfl

theorem GetAllFiles_single (pmax : Nat) (fs : FileSys) (fuel : Nat) (base : CStr) (cap : Nat)
    (hdir : statIsDir fs base = true) :
    GetAllFiles pmax fs fuel { items := [base], capacity := cap } =
      GetAllFilesRecursive pmax fs fuel base InitStringList := by
  unfold GetAllFiles
  simp only [GetAllFilesLoop, hdir, if_true, GetAllFilesLoop_nil]
  cases GetAllFilesRecursive pmax fs fuel base InitStringList <;> rfl

theorem GetAllFilesRecursive_open (pmax : Nat) (fs : FileSys) (fuel : Nat) (base : CStr)
    (fl : StringList) (entries : List Dirent) (ho : fs.opendir base = some entries) :
    GetAllFilesRecursive pmax fs (fuel + 1) base fl =
      scanEntries pmax fs (GetAllFilesRecursive pmax fs fuel) base entries fl := by
  rw [GetAllFilesRecursive]
  simp only [ho]

theorem longBase_length : longBase.length = 4095 := by
  simp only [longBase, List.length_append, List.length_replicate, List.length_cons,
    List.length_nil]

theorem longBase_nulFree : ∀ c ∈ longBase, c ≠ 0 := by
  intro c hc
  simp only [longBase, List.mem_append, List.mem_replicate, List.mem_cons,
    List.mem_nil_iff, or_false] at hc
  omega

theorem longBase_contains : longBase.contains 0 = false := by
  cases h : longBase.contains 0 with
  | false => rfl
  | true => exact absurd rfl (longBase_nulFree 0 (by simpa using h))

theorem longBase_ne_join : ¬ joinPath longBase [102] = longBase := by
  intro h
  have := congrArg List.length h
  simp only [joinPath, List.length_append, List.length_cons, List.length_nil] at this
  omega

theorem longBase_cut : snprintf_path PATH_MAX longBase [102] = longBase := by
  unfold snprintf_path
  rw [cstr_of_nulFree longBase longBase_nulFree, List.append_assoc]
  exact List.take_left' (by simp [PATH_MAX, longBase_length])

/-- C7, counterexample: the directory `longBase` (a path of `PATH_MAX - 1`
bytes) exists, can be read and holds exactly one regular file `f`; the path
built for `f` is cut by `snprintf` to `PATH_MAX - 1` bytes, so the single path
`GetAllFiles` returns is `longBase` itself, the path of the directory,
and not the path of the file. -/
theorem C7_long_path_is_cut :
    dirAgrees longFs longBase longTree = true ∧
    longTree.directFiles = 1 ∧ longTree.deepFiles = 0 ∧
    GetAllFiles PATH_MAX longFs 1 { items := [longBase], capacity := 8 } =
      some { items := [longBase], capacity := 8 } ∧
    statIsDir longFs longBase = true ∧
    longBase ∉ longTree.filePaths longBase := by
  have hdir : statIsDir longFs longBase = true := by
    simp [statIsDir, longFs]; decide
  have hopen : longFs.opendir longBase = some (dotEntries ++ longTree.dirents) := by
    simp [longFs]
  have hlstat : lstatIs longFs S_ISREG (joinPath longBase [102]) = true := by
    simp [lstatIs, longFs, longBase_ne_join]; decide
  refine ⟨?_, rfl, rfl, ?_, hdir, ?_⟩
  · have hents : opendirIs longFs longBase longTree = true := by
      unfold opendirIs
      rw [hopen]
      decide
    have hagrees : longTree.agrees longFs longBase = true := by
      simp only [longTree, Tree.agrees, hlstat]
      decide
    simp only [dirAgrees, longBase_contains, hdir, hents, hagrees]
    decide
  · have hscan : scanEntries PATH_MAX longFs (GetAllFilesRecursive PATH_MAX longFs 0) longBase
        (dotEntries ++ longTree.dirents) InitStringList =
          some { items := [longBase], capacity := 8 } := by
      rw [scanEntries_skip_dots]
      have hf : (dotEntries ++ longTree.dirents).filter (fun e => !(isDotEntry e.d_name)) =
          [{ d_name := [102], d_type := DT_REG }] := by decide
      rw [hf, scanEntries_reg_step PATH_MAX longFs _ longBase _ _ _ (by decide)
        (Or.inl rfl), longBase_cut]
      rfl
    rw [GetAllFiles_single PATH_MAX longFs 1 longBase 8 hdir,
      GetAllFilesRecursive_open PATH_MAX longFs 0 longBase _ _ hopen, hscan]
  · intro hmem
    simp only [longTree, Tree.filePaths, List.mem_singleton] at hmem
    exact longBase_ne_join hmem.symm

/-- C7 as amended: `GetAllFiles` on the empty directory list returns the
empty list; and for a list of one directory `base` that exists, can be read
everywhere and holds the entries `t` (N regular files directly, K more within
its subdirectories), where every path formed below `base` is shorter than
`PATH_MAX` and no entry other than a regular file or a directory is reported
as `DT_UNKNOWN` while `stat` finds a regular file or a directory behind it,
`GetAllFiles` returns (given fuel above the nesting depth) exactly N + K
paths: the paths of the regular files, each parent path, slash, entry name,
depth first in entry order; each is the path of a regular file, none of a
directory. -/
theorem C7_enumerate_tree (pmax : Nat) (fs : FileSys) (base : CStr) (t : Tree)
    (fuel cap : Nat)
    (hagree : dirAgrees fs base t = true) (hfits : t.fits pmax base = true)
    (hfuel : t.depth < fuel) :
    GetAllFiles pmax fs fuel { items := [], capacity := cap } = some InitStringList ∧
    ∃ files, GetAllFiles pmax fs fuel { items := [base], capacity := cap } = some files ∧
      files.items = t.filePaths base ∧
      files.count = t.directFiles + t.deepFiles ∧
      ∀ p ∈ files.items, lstatIs fs S_ISREG p = true ∧ lstatIs fs S_ISDIR p = false := by
  simp only [dirAgrees, Bool.and_eq_true, Bool.not_eq_true'] at hagree
  obtain ⟨⟨⟨hnul, hdir⟩, hopen⟩, hag⟩ := hagree
  have hb : ∀ c ∈ base, c ≠ 0 := by
    intro c hc h0
    subst h0
    have : base.contains 0 = true := by simpa using hc
    rw [hnul] at this
    exact Bool.false_ne_true this
  obtain ⟨k, rfl⟩ : ∃ k, fuel = k + 1 := ⟨fuel - 1, by omega⟩
  obtain ⟨r, hr, hitems⟩ := scanEntries_tree pmax fs t base k InitStringList hb hag hfits
    (by omega)
  obtain ⟨entries, hents, hscan⟩ := opendirIs_scan pmax fs (GetAllFilesRecursive pmax fs k)
    base t hopen
  have hi : r.items = t.filePaths base := by simpa [InitStringList] using hitems
  refine ⟨rfl, r, ?_, hi, ?_, ?_⟩
  · rw [GetAllFiles_single pmax fs (k + 1) base cap hdir,
      GetAllFilesRecursive_open pmax fs k base _ entries hents, hscan]
    exact hr
  · simp only [StringList.count, hi, filePaths_length, countFiles_split]
  · intro p hp
    rw [hi] at hp
    have hreg := filePaths_regular fs t base hag p hp
    refine ⟨hreg, ?_⟩
    unfold lstatIs at hreg ⊢
    cases hl : fs.lstatMode p with
    | none => rfl
    | some m =>
      simp only [hl] at hreg
      exact S_ISREG_not_dir m hreg

/-- Witness of C7 as amended: the directory `/a` of `smallFs`, with one
regular file directly and one more in its subdirectory. -/
theorem C7_enumerate_witness :
    dirAgrees smallFs aPath smallTree = true ∧ smallTree.fits PATH_MAX aPath = true ∧
    smallTree.depth < 3 ∧
    ∃ files, GetAllFiles PATH_MAX smallFs 3 { items := [aPath], capacity := 8 } = some files ∧
      files.items = smallTree.filePaths aPath ∧
      files.count = smallTree.directFiles + smallTree.deepFiles ∧
      ∀ p ∈ files.items,
        lstatIs smallFs S_ISREG p = true ∧ lstatIs smallFs S_ISDIR p = false :=
  ⟨by decide, by decide, by decide,
    (C7_enumerate_tree PATH_MAX smallFs aPath smallTree 3 8 (by decide) (by decide)
      (by decide)).2⟩

/-- C8, the code at the failing input: the directory `/a` holds `l`, a
symbolic link to a regular file. When `readdir` reports `DT_UNKNOWN` for it,
the fallback calls `stat`, which follows the link and finds a regular file,
and `/a/l` is appended to the result; when `readdir` reports `DT_LNK` for the
same entry, it is ignored. -/
theorem C8_symlink_followed_by_stat :
    lstatIs (linkFs DT_UNKNOWN) S_ISLNK linkPath = true ∧
    lstatIs (linkFs DT_UNKNOWN) S_ISREG linkPath = false ∧
    lstatIs (linkFs DT_UNKNOWN) S_ISDIR linkPath = false ∧
    GetAllFiles PATH_MAX (linkFs DT_UNKNOWN) 1 oneDir =
      some { items := [linkPath], capacity := 8 } ∧
    GetAllFiles PATH_MAX (linkFs DT_LNK) 1 oneDir = some InitStringList := by
  decide

/-! ## The watcher thread: claims C11 and C12 -/

theorem le32_u32le (x : Nat) (rest : List Nat) (hx : x < 4294967296) :
    le32 (u32le x ++ rest) = x := by
  simp [le32, u32le]
  omega

theorem encode_length (e : InotifyEvent) : e.encode.length = inotifyEventSize + e.len := by
  simp [InotifyEvent.encode, u32le, InotifyEvent.len, inotifyEventSize]
  omega

theorem encode_mask (e : InotifyEvent) (tail : List Nat) (h : e.mask < 4294967296) :
    le32 ((e.encode ++ tail).drop 4) = e.mask := by
  have : (e.encode ++ tail).drop 4 =
      u32le e.mask ++ (u32le e.cookie ++ u32le e.len ++ e.name ++ List.replicate e.pad 0
        ++ tail) := by
    simp [InotifyEvent.encode, u32le]
  rw [this, le32_u32le _ _ h]

theorem encode_len (e : InotifyEvent) (tail : List Nat) (h : e.len < 4294967296) :
    le32 ((e.encode ++ tail).drop 12) = e.len := by
  have : (e.encode ++ tail).drop 12 =
      u32le e.len ++ (e.name ++ List.replicate e.pad 0 ++ tail) := by
    simp [InotifyEvent.encode, u32le]
  rw [this, le32_u32le _ _ h]

theorem encode_name (e : InotifyEvent) (tail : List Nat) :
    (e.encode ++ tail).drop inotifyEventSize = e.name ++ (List.replicate e.pad 0 ++ tail) := by
  simp [InotifyEvent.encode, u32le, inotifyEventSize]

theorem cstr_event_name (e : InotifyEvent) (tail : List Nat) (hwf : WellFormedEvent e)
    (hne : e.name ≠ []) : cstr (e.name ++ (List.replicate e.pad 0 ++ tail)) = e.name := by
  obtain ⟨_, hnul, _, hpad, _, _⟩ := hwf
  obtain ⟨k, hk⟩ : ∃ k, e.pad = k + 1 := ⟨e.pad - 1, by have := hpad hne; omega⟩
  rw [hk, List.replicate_succ, List.cons_append]
  unfold cstr
  exact takeWhile_stop e.name 0 _ (fun c hc => by simpa using hnul c hc) (by simp)

theorem handleEvent_encoded (pmax : Nat) (e : InotifyEvent) (tail : List Nat)
    (hwf : WellFormedEvent e) :
    handleEvent pmax e.mask e.len (e.name ++ (List.replicate e.pad 0 ++ tail)) =
      notificationsOf pmax e := by
  unfold notificationsOf
  by_cases hne : e.name = []
  · have hpad : e.pad = 0 := hwf.2.2.2.2.1 hne
    have hl : e.len = 0 := by simp [InotifyEvent.len, hne, hpad]
    simp [handleEvent, hl]
  · have h1 := cstr_event_name e tail hwf hne
    have h2 : cstr e.name = e.name := cstr_of_nulFree e.name hwf.2.1
    simp only [handleEvent, eventMessage, h1, h2]

theorem wrapInt_small (x : Int) (h0 : 0 ≤ x) (h1 : x ≤ 2147483647) : wrapInt x = x := by
  unfold wrapInt
  omega

theorem encodeEvents_length_ge : ∀ (events : List InotifyEvent),
    events.length ≤ (encodeEvents events).length
  | [] => by simp [encodeEvents]
  | e :: rest => by
    have ih := encodeEvents_length_ge rest
    simp only [encodeEvents, List.length_append, List.length_cons, encode_length,
      inotifyEventSize]
    omega

theorem decodeEvents_encoded (pmax : Nat) :
    ∀ (events : List InotifyEvent) (pre : List Nat) (out : List Notification) (fuel : Nat),
      (∀ e ∈ events, WellFormedEvent e) →
      (pre ++ encodeEvents events).length ≤ EVENT_BUF_LEN → events.length < fuel →
      decodeEvents pmax (pre ++ encodeEvents events)
          ((pre ++ encodeEvents events).length : Int) fuel (pre.length : Int) out =
        some (out ++ events.flatMap (notificationsOf pmax))
  | [], pre, out, fuel, _, _, hf => by
    obtain ⟨k, rfl⟩ : ∃ k, fuel = k + 1 := ⟨fuel - 1, by simp at hf; omega⟩
    simp [decodeEvents, encodeEvents]
  | e :: rest, pre, out, fuel, hwf, hlen, hf => by
    obtain ⟨k, rfl⟩ : ∃ k, fuel = k + 1 := ⟨fuel - 1, by omega⟩
    have hwe : WellFormedEvent e := hwf e (List.mem_cons_self _ _)
    have hwr : ∀ x ∈ rest, WellFormedEvent x := fun x hx => hwf x (List.mem_cons_of_mem _ hx)
    have hel := encode_length e
    have hbuf : pre ++ encodeEvents (e :: rest) = (pre ++ e.encode) ++ encodeEvents rest := by
      simp [encodeEvents]
    have hdrop : (pre ++ encodeEvents (e :: rest)).drop pre.length =
        e.encode ++ encodeEvents rest := by
      simp [encodeEvents]
    have hlen2 : ((pre ++ e.encode) ++ encodeEvents rest).length ≤ EVENT_BUF_LEN := by
      rw [← hbuf]; exact hlen
    have ih := decodeEvents_encoded pmax rest (pre ++ e.encode)
      (out ++ notificationsOf pmax e) k hwr hlen2 (by simpa using hf)
    have hlt : (pre.length : Int) < ((pre ++ encodeEvents (e :: rest)).length : Int) := by
      simp only [encodeEvents, List.length_append, hel, inotifyEventSize]
      push_cast
      omega
    have hnn : ¬ ((pre.length : Int) < 0) := by omega
    have hnext : wrapInt ((pre.length : Int) + (inotifyEventSize : Int) + (e.len : Int)) =
        ((pre ++ e.encode).length : Int) := by
      have hb : (pre ++ e.encode).length ≤ EVENT_BUF_LEN := by
        have := hlen2
        simp only [List.length_append] at this ⊢
        omega
      simp only [List.length_append, hel, EVENT_BUF_LEN, inotifyEventSize] at hb ⊢
      push_cast
      rw [wrapInt_small _ (by omega) (by omega)]
      omega
    rw [decodeEvents]
    simp only [hlt, hnn, if_true, if_false, Int.toNat_ofNat, hdrop,
      encode_mask e _ hwe.1, encode_len e _ hwe.2.2.2.2.2, encode_name,
      handleEvent_encoded pmax e _ hwe, hnext]
    rw [hbuf, ih]
    simp [List.flatMap_cons, List.append_assoc]

theorem eventMessage_whole (pmax : Nat) (k : EventKind) (name : CStr) (hp : NAME_MAX ≤ pmax)
    (hnul : ∀ c ∈ name, c ≠ 0) (hlen : name.length ≤ NAME_MAX) :
    eventMessage pmax k name = msgHead k ++ name ++ msgTail k := by
  unfold eventMessage
  rw [cstr_of_nulFree name hnul]
  apply List.take_of_length_le
  unfold NAME_MAX at hp hlen
  cases k <;> simp [msgHead, msgTail] <;> omega

theorem notificationsOf_kind (pmax : Nat) (e : InotifyEvent) (k : EventKind)
    (hp : NAME_MAX ≤ pmax) (hwf : WellFormedEvent e)
    (hdir : hasFlag e.mask IN_ISDIR = false) (hne : e.name ≠ []) (hk : onlyKind e.mask k) :
    notificationsOf pmax e = [{ kind := k, msg := msgHead k ++ e.name ++ msgTail k }] := by
  have hl : e.len ≠ 0 := by
    have := List.length_pos.mpr hne
    unfold InotifyEvent.len
    omega
  have hmsg := fun k2 => eventMessage_whole pmax k2 e.name hp hwf.2.1 hwf.2.2.1
  have hc := hk EventKind.created
  have hd := hk EventKind.deleted
  have hf := hk EventKind.renamedFrom
  have ht := hk EventKind.renamedTo
  simp only [EventKind.bit] at hc hd hf ht
  unfold notificationsOf handleEvent
  cases k with
  | created =>
    have h1 : hasFlag e.mask IN_CREATE = true := hc.mpr rfl
    simp [hl, hdir, h1, hmsg]
  | deleted =>
    have h1 : hasFlag e.mask IN_CREATE = false := by
      cases h : hasFlag e.mask IN_CREATE with
      | false => rfl
      | true => exact absurd (hc.mp h) (by decide)
    have h2 : hasFlag e.mask IN_DELETE = true := hd.mpr rfl
    simp [hl, hdir, h1, h2, hmsg]
  | renamedFrom =>
    have h1 : hasFlag e.mask IN_CREATE = false := by
      cases h : hasFlag e.mask IN_CREATE with
      | false => rfl
      | true => exact absurd (hc.mp h) (by decide)
    have h2 : hasFlag e.mask IN_DELETE = false := by
      cases h : hasFlag e.mask IN_DELETE with
      | false => rfl
      | true => exact absurd (hd.mp h) (by decide)
    have h3 : hasFlag e.mask IN_MOVED_FROM = true := hf.mpr rfl
    simp [hl, hdir, h1, h2, h3, hmsg]
  | renamedTo =>
    have h1 : hasFlag e.mask IN_CREATE = false := by
      cases h : hasFlag e.mask IN_CREATE with
      | false => rfl
      | true => exact absurd (hc.mp h) (by decide)
    have h2 : hasFlag e.mask IN_DELETE = false := by
      cases h : hasFlag e.mask IN_DELETE with
      | false => rfl
      | true => exact absurd (hd.mp h) (by decide)
    have h3 : hasFlag e.mask IN_MOVED_FROM = false := by
      cases h : hasFlag e.mask IN_MOVED_FROM with
      | false => rfl
      | true => exact absurd (hf.mp h) (by decide)
    have h4 : hasFlag e.mask IN_MOVED_TO = true := ht.mpr rfl
    simp [hl, hdir, h1, h2, h3, h4, hmsg]

/-- C11: for every buffer made of well-formed inotify event records (at
most `EVENT_BUF_LEN` bytes, names of at most `NAME_MAX` bytes fitting the
message buffer), the decoding loop of `WatcherThread` ends and prints, record
by record in buffer order, what each record alone gives: it visits every
record exactly once and stops at the end of the buffer. A record with
`IN_ISDIR` set gives no notification; a record without it, with a name that
is not empty and exactly one of the four kinds set, gives exactly one
notification, of that kind, whose text carries that name. -/
theorem C11_event_decoding (pmax : Nat) (events : List InotifyEvent)
    (hp : NAME_MAX ≤ pmax) (hwf : ∀ e ∈ events, WellFormedEvent e)
    (hlen : (encodeEvents events).length ≤ EVENT_BUF_LEN) :
    decodeBuffer pmax (encodeEvents events) =
      some (events.flatMap (notificationsOf pmax)) ∧
    (∀ e ∈ events, hasFlag e.mask IN_ISDIR = true → notificationsOf pmax e = []) ∧
    (∀ e ∈ events, ∀ k : EventKind, hasFlag e.mask IN_ISDIR = false → e.name ≠ [] →
      onlyKind e.mask k →
      notificationsOf pmax e = [{ kind := k, msg := msgHead k ++ e.name ++ msgTail k }]) := by
  refine ⟨?_, ?_, ?_⟩
  · have h := decodeEvents_encoded pmax events [] [] ((encodeEvents events).length + 1) hwf
      (by simpa using hlen) (by have := encodeEvents_length_ge events; omega)
    simpa [decodeBuffer] using h
  · intro e _ hdir
    simp [notificationsOf, handleEvent, hdir]
  · intro e he k hdir hne hk
    exact notificationsOf_kind pmax e k hp (hwf e he) hdir hne hk

/-- Witness of C11: a buffer with the creation of `t`, the creation of the
directory `d` and the deletion of `t`. -/
theorem C11_event_decoding_witness :
    NAME_MAX ≤ PATH_MAX ∧ (∀ e ∈ demoEvents, WellFormedEvent e) ∧
    (encodeEvents demoEvents).length ≤ EVENT_BUF_LEN ∧
    decodeBuffer PATH_MAX (encodeEvents demoEvents) =
      some (demoEvents.flatMap (notificationsOf PATH_MAX)) ∧
    demoEvents.flatMap (notificationsOf PATH_MAX) =
      [{ kind := EventKind.created, msg := msgHead .created ++ [116] ++ msgTail .created },
       { kind := EventKind.deleted, msg := msgHead .deleted ++ [116] ++ msgTail .deleted }] ∧
    onlyKind IN_DELETE EventKind.deleted ∧
    notificationsOf PATH_MAX
        { wd := 1, mask := IN_DELETE, cookie := 0, name := [116], pad := 15 } =
      [{ kind := EventKind.deleted, msg := msgHead .deleted ++ [116] ++ msgTail .deleted }] :=
  ⟨by decide, by decide, by decide,
    (C11_event_decoding PATH_MAX demoEvents (by decide) (by decide) (by decide)).1,
    by decide,
    fun k2 => by cases k2 <;> decide,
    (C11_event_decoding PATH_MAX demoEvents (by decide) (by decide) (by decide)).2.2
      { wd := 1, mask := IN_DELETE, cookie := 0, name := [116], pad := 15 } (by decide)
      EventKind.deleted (by decide) (by decide) (fun k2 => by cases k2 <;> decide)⟩

theorem registerWatches_overrun : ∀ (dirs : List CStr) (i : Nat) (wd_map : List (Option CStr)),
    i < MAX_WATCHES → MAX_WATCHES ≤ i + dirs.length →
    registerWatches seqHandles dirs i wd_map i =
      RegisterResult.outOfBounds (MAX_WATCHES - 1) MAX_WATCHES
  | [], i, _, h1, h2 => by simp at h2; omega
  | dir :: rest, i, wd_map, h1, h2 => by
    have hwd : seqHandles i dir = ((i + 1 : Nat) : Int) := by simp [seqHandles]
    have hnn : ¬ seqHandles i dir < 0 := by rw [hwd]; omega
    have htn : (seqHandles i dir).toNat = i + 1 := by rw [hwd]; rfl
    rw [registerWatches]
    simp only [h1, if_true, hnn, if_false, htn]
    by_cases hin : i + 1 < MAX_WATCHES
    · simp only [hin, if_true]
      exact registerWatches_overrun rest (i + 1) _ hin (by simp at h2; omega)
    · simp only [hin, if_false]
      have : i = MAX_WATCHES - 1 := by omega
      rw [this]
      rfl

theorem registerWatches_in_bounds : ∀ (dirs : List CStr) (i : Nat)
    (wd_map : List (Option CStr)), wd_map.length = MAX_WATCHES →
    i + dirs.length < MAX_WATCHES →
    ∃ table, registerWatches seqHandles dirs i wd_map i =
        RegisterResult.done table (i + dirs.length) ∧
      table.length = MAX_WATCHES ∧ (∀ j, j ≤ i → table[j]? = wd_map[j]?) ∧
      ∀ k dir, dirs[k]? = some dir → table[i + k + 1]? = some (some dir)
  | [], i, wd_map, hl, _ => ⟨wd_map, by simp [registerWatches], hl, fun _ _ => rfl, by simp⟩
  | dir :: rest, i, wd_map, hl, hb => by
    have hwd : seqHandles i dir = ((i + 1 : Nat) : Int) := by simp [seqHandles]
    have hnn : ¬ seqHandles i dir < 0 := by rw [hwd]; omega
    have htn : (seqHandles i dir).toNat = i + 1 := by rw [hwd]; rfl
    have hlen : (dir :: rest).length = rest.length + 1 := rfl
    have hi : i < MAX_WATCHES := by omega
    have hin : i + 1 < MAX_WATCHES := by omega
    obtain ⟨table, hreg, htl, hkeep, hget⟩ := registerWatches_in_bounds rest (i + 1)
      (wd_map.set (i + 1) (some dir)) (by simpa using hl) (by omega)
    refine ⟨table, ?_, htl, ?_, ?_⟩
    · rw [registerWatches]
      simp only [hi, if_true, hnn, if_false, htn, hin]
      rw [hreg, hlen]
      congr 1
      omega
    · intro j hj
      rw [hkeep j (by omega), List.getElem?_set_ne (by omega)]
    · intro k d hk
      cases k with
      | zero =>
        have hd : d = dir := by simpa using hk.symm
        rw [hd, Nat.add_zero, hkeep (i + 1) (le_refl _), List.getElem?_set_self (by omega)]
      | succ k =>
        have := hget k d (by simpa using hk)
        have e : i + (k + 1) + 1 = i + 1 + k + 1 := by omega
        rw [e]
        exact this

theorem registerWatches_all_fail (addWatch : Nat → CStr → Int)
    (hfail : ∀ i dir, addWatch i dir < 0) : ∀ (dirs : List CStr) (i : Nat)
    (wd_map : List (Option CStr)),
    registerWatches addWatch dirs i wd_map 0 = RegisterResult.done wd_map 0
  | [], _, _ => rfl
  | dir :: rest, i, wd_map => by
    rw [registerWatches]
    have h0 : 0 < MAX_WATCHES := by decide
    simp only [h0, if_true, hfail i dir]
    exact registerWatches_all_fail addWatch hfail rest (i + 1) wd_map

theorem WatcherThread_no_watches (pmax : Nat) (addWatch : Nat → CStr → Int)
    (dirs : StringList) (polls : List ReadResult) (hfail : ∀ i dir, addWatch i dir < 0) :
    WatcherThread pmax true addWatch dirs polls =
      WatcherEnd.returned { closedFd := true, reads := 0, notifications := [] } := by
  unfold WatcherThread
  rw [registerWatches_all_fail addWatch hfail]
  simp

theorem registerWatches_below_limit (dirs : StringList) (hn : dirs.count < MAX_WATCHES) :
    ∃ table, registerWatches seqHandles dirs.items 0 emptyWdMap 0 =
        RegisterResult.done table dirs.count ∧
      table.length = MAX_WATCHES ∧
      ∀ k dir, dirs.items[k]? = some dir → k + 1 < MAX_WATCHES ∧
        table[k + 1]? = some (some dir) := by
  obtain ⟨table, hreg, htl, _, hget⟩ := registerWatches_in_bounds dirs.items 0 emptyWdMap
    (by simp [emptyWdMap]) (by simpa [StringList.count] using hn)
  refine ⟨table, by simpa [StringList.count] using hreg, htl, ?_⟩
  intro k dir hk
  have hlt : k < dirs.items.length := by
    by_contra hc
    rw [List.getElem?_eq_none (by omega)] at hk
    exact Option.noConfusion hk
  refine ⟨by unfold StringList.count at hn; omega, ?_⟩
  simpa using hget k dir hk

theorem manyDirs_count : manyDirs.count = 1024 := by
  simp [manyDirs, StringList.count]

/-- C12, the code at the failing input: a snapshot of 1024 directories that
all register, with inotify giving the handles 1, 2, ..., 1024 in order. The
handle of the last directory (index 1023) is 1024, and `wd_map[1024]` lies
outside the table of `MAX_WATCHES = 1024` entries (indices 0 to 1023): the
registration loop stores past the end of the table. -/
theorem C12_table_overrun_at_1024 :
    manyDirs.count = MAX_WATCHES ∧
    emptyWdMap.length = MAX_WATCHES ∧
    registerWatches seqHandles manyDirs.items 0 emptyWdMap 0 =
      RegisterResult.outOfBounds 1023 1024 ∧
    WatcherThread PATH_MAX true seqHandles manyDirs [] = WatcherEnd.tableOverrun 1023 1024 := by
  have hreg : registerWatches seqHandles manyDirs.items 0 emptyWdMap 0 =
      RegisterResult.outOfBounds 1023 1024 :=
    registerWatches_overrun manyDirs.items 0 emptyWdMap (by decide)
      (by have := manyDirs_count; unfold StringList.count at this; rw [this]; decide)
  refine ⟨manyDirs_count, by simp [emptyWdMap], hreg, ?_⟩
  unfold WatcherThread
  rw [hreg]
  rfl

end RandomFileDisplayer
